import Mathlib

/-!
# Verification of the device-sdk core against its specification

This file gives a shallow embedding, in Lean 4, of the parts of the
`spotflow` device SDK (Rust) that the specification talks about, and proves
or refutes the specification's claims against that embedding.

The embedding follows the Rust sources:
* `src/spotflow/src/iothub/json_diff.rs` (`diff_objects`, `diff`),
* the `json_patch::merge` RFC-7396 merge used by the twin reconciler,
* `src/spotflow/src/iothub/twins/mod.rs` (`DeviceTwin`),
* `src/spotflow/src/persistence/twins.rs` (`Twin::update`),
* `src/spotflow/src/iothub/handlers/c2d.rs` (`CloudToDeviceHandler::handle`),
* `src/spotflow/src/iothub/query.rs` (`parse`),
* `src/spotflow/src/iothub/sender.rs` (compression selection),
* `src/spotflow/src/iothub/token_handler.rs` (`expect_clockskew`),
* `src/spotflow/src/cloud/duration_wrapper.rs` (`DurationVisitor::visit_str`),
* `src/spotflow/src/ingress/builder.rs` (`build_impl` validation).

JSON values (`serde_json::Value`) are modelled by the inductive type `Json`
below.  `serde_json` is compiled with its default feature set in this
repository, so objects are backed by a `BTreeMap<String, Value>`: the field
list of an object is strictly sorted by key and duplicate-free, and value
equality on objects is map equality, which on such lists coincides with
structural list equality.  The predicate `Json.wf` captures exactly this
"is a `serde_json::Value`" invariant.  JSON numbers are modelled as `Int`
(none of the verified properties depends on number representation).
-/

set_option maxHeartbeats 1000000

namespace DeviceSdk

/-- Model of `serde_json::Value`.  Objects carry their (BTreeMap-ordered)
field list explicitly. -/
inductive Json where
  | null
  | bool (b : Bool)
  | num (n : Int)
  | str (s : String)
  | arr (elems : List Json)
  | obj (fields : List (String × Json))
deriving Repr

namespace Json

/-- Model of `Value::is_null`. -/
def isNull : Json → Bool
  | .null => true
  | _ => false

/-- Model of `Value::is_object`. -/
def isObj : Json → Bool
  | .obj _ => true
  | _ => false

end Json

mutual

/-- Boolean equality of JSON values (structural; on well-formed values this
is exactly `serde_json::Value` equality, see the header comment). -/
def jeq : Json → Json → Bool
  | .null, .null => true
  | .bool a, .bool b => a == b
  | .num a, .num b => a == b
  | .str a, .str b => a == b
  | .arr a, .arr b => jeqList a b
  | .obj a, .obj b => jeqFields a b
  | _, _ => false

def jeqList : List Json → List Json → Bool
  | [], [] => true
  | a :: as, b :: bs => jeq a b && jeqList as bs
  | _, _ => false

def jeqFields : List (String × Json) → List (String × Json) → Bool
  | [], [] => true
  | (ka, va) :: as, (kb, vb) :: bs => ka == kb && jeq va vb && jeqFields as bs
  | _, _ => false

end

mutual

theorem jeq_iff : ∀ (a b : Json), jeq a b = true ↔ a = b
  | .null, .null => by simp [jeq]
  | .bool _, .bool _ => by simp [jeq]
  | .num _, .num _ => by simp [jeq]
  | .str _, .str _ => by simp [jeq]
  | .arr a, .arr b => by
      simp only [jeq, Json.arr.injEq]
      exact jeqList_iff a b
  | .obj a, .obj b => by
      simp only [jeq, Json.obj.injEq]
      exact jeqFields_iff a b
  | .null, .bool _ | .null, .num _ | .null, .str _ | .null, .arr _ | .null, .obj _
  | .bool _, .null | .bool _, .num _ | .bool _, .str _ | .bool _, .arr _ | .bool _, .obj _
  | .num _, .null | .num _, .bool _ | .num _, .str _ | .num _, .arr _ | .num _, .obj _
  | .str _, .null | .str _, .bool _ | .str _, .num _ | .str _, .arr _ | .str _, .obj _
  | .arr _, .null | .arr _, .bool _ | .arr _, .num _ | .arr _, .str _ | .arr _, .obj _
  | .obj _, .null | .obj _, .bool _ | .obj _, .num _ | .obj _, .str _ | .obj _, .arr _ => by
      simp [jeq]

theorem jeqList_iff : ∀ (a b : List Json), jeqList a b = true ↔ a = b
  | [], [] => by simp [jeqList]
  | a :: as, b :: bs => by
      simp only [jeqList, Bool.and_eq_true, List.cons.injEq]
      exact and_congr (jeq_iff a b) (jeqList_iff as bs)
  | [], _ :: _ => by simp [jeqList]
  | _ :: _, [] => by simp [jeqList]

theorem jeqFields_iff : ∀ (a b : List (String × Json)), jeqFields a b = true ↔ a = b
  | [], [] => by simp [jeqFields]
  | (ka, va) :: as, (kb, vb) :: bs => by
      simp only [jeqFields, Bool.and_eq_true, List.cons.injEq, Prod.mk.injEq, beq_iff_eq]
      rw [jeq_iff va vb, jeqFields_iff as bs, and_assoc]
  | [], _ :: _ => by simp [jeqFields]
  | _ :: _, [] => by simp [jeqFields]

end

instance : DecidableEq Json := fun a b => decidable_of_iff (jeq a b = true) (jeq_iff a b)

/-- Kernel-reducible key comparison: lexicographic order on the character
lists of the two strings.  This is the order of a `BTreeMap<String, _>`
(byte-wise comparison of the UTF-8 encodings, which coincides with
code-point order). -/
def strLt (a b : String) : Bool := decide (a.data < b.data)

theorem strLt_iff (a b : String) : strLt a b = true ↔ a < b := by
  rw [strLt, decide_eq_true_eq, String.lt_iff_toList_lt]
  exact Iff.rfl

theorem strLt_true {a b : String} (h : a < b) : strLt a b = true := (strLt_iff a b).mpr h

theorem strLt_false {a b : String} (h : ¬a < b) : ¬strLt a b = true :=
  fun hh => h ((strLt_iff a b).mp hh)

/-! ## Association-list operations (the `BTreeMap` interface used by the code) -/

/-- Model of `BTreeMap::get` (first match; unique on well-formed field lists). -/
def alookup (k : String) : List (String × Json) → Option Json
  | [] => none
  | (k', v) :: rest => if k' = k then some v else alookup k rest

/-- Model of `BTreeMap::insert` on the sorted field-list representation. -/
def ainsert (k : String) (v : Json) : List (String × Json) → List (String × Json)
  | [] => [(k, v)]
  | (k', v') :: rest =>
    if strLt k k' then (k, v) :: (k', v') :: rest
    else if k = k' then (k, v) :: rest
    else (k', v') :: ainsert k v rest

/-- Model of `BTreeMap::remove` on the field-list representation. -/
def aremove (k : String) : List (String × Json) → List (String × Json)
  | [] => []
  | (k', v') :: rest => if k = k' then rest else (k', v') :: aremove k rest

/-- The keys of a field list. -/
def keys (l : List (String × Json)) : List String := l.map Prod.fst

/-- Strictly-sorted keys: the ordering invariant of a `BTreeMap`. -/
def SortedKeys (l : List (String × Json)) : Prop :=
  List.Pairwise (· < ·) (keys l)

/-- Boolean version of key sortedness (for executability). -/
def chainLtKeys : List (String × Json) → Bool
  | [] => true
  | [_] => true
  | (k1, _) :: (k2, v2) :: rest => strLt k1 k2 && chainLtKeys ((k2, v2) :: rest)

mutual

/-- Well-formedness: the value is (the model of) an actual
`serde_json::Value`, i.e. every object's field list is strictly sorted by
key (hence duplicate-free), recursively. -/
def Json.wf : Json → Bool
  | .obj fields => chainLtKeys fields && wfFields fields
  | .arr elems => wfList elems
  | _ => true

def wfFields : List (String × Json) → Bool
  | [] => true
  | (_, v) :: rest => v.wf && wfFields rest

def wfList : List Json → Bool
  | [] => true
  | v :: rest => v.wf && wfList rest

end

theorem chainLtKeys_iff_chain : ∀ (l : List (String × Json)),
    chainLtKeys l = true ↔ List.Chain' (· < ·) (keys l)
  | [] => by simp [chainLtKeys, keys]
  | [(k, v)] => by simp [chainLtKeys, keys]
  | (k1, v1) :: (k2, v2) :: rest => by
    have ih := chainLtKeys_iff_chain ((k2, v2) :: rest)
    simp only [chainLtKeys, Bool.and_eq_true, strLt_iff, ih, keys, List.map_cons,
      List.chain'_cons]

theorem chainLtKeys_iff_sortedKeys (l : List (String × Json)) :
    chainLtKeys l = true ↔ SortedKeys l := by
  rw [chainLtKeys_iff_chain, SortedKeys, List.chain'_iff_pairwise]

mutual

/-- No object field anywhere in the value (outside arrays) is `null`.
Arrays are not traversed because both the diff and the RFC-7396 merge treat
non-object values — arrays in particular — wholesale. -/
def Json.noNulls : Json → Bool
  | .obj fields => noNullsFields fields
  | _ => true

def noNullsFields : List (String × Json) → Bool
  | [] => true
  | (_, v) :: rest => !v.isNull && v.noNulls && noNullsFields rest

end

/-- A sequence of `BTreeMap::insert` calls, starting from `base`. -/
def mapInsertAll (base : List (String × Json)) (l : List (String × Json)) :
    List (String × Json) :=
  l.foldl (fun acc p => ainsert p.1 p.2 acc) base

/-! ## The reported-properties diff (`src/spotflow/src/iothub/json_diff.rs`)

`diff_objects` builds its result by inserting into a fresh
`serde_json::Map` (a `BTreeMap`): first the keys taken from `desired`
(verbatim or recursively diffed), then — with a key set disjoint from the
first pass — the keys only present in `original`, mapped to `null`.
`diffFields` below records the insertions performed by the first loop, in
loop order, and `mapInsertAll` replays all insertions of both loops against
the fresh map. -/

mutual

/-- Model of `json_diff::diff_objects`. -/
def diffObjects (original desired : Json) : Option Json :=
  if original = desired then none
  else
    match desired with
    | .obj dfields =>
      match original with
      | .obj ofields =>
        let r1 := diffFields ofields dfields
        let removed := ofields.filter (fun p => (alookup p.1 dfields).isNone)
        some (.obj (mapInsertAll [] (r1 ++ removed.map (fun p => (p.1, Json.null)))))
      | _ => some desired
    | _ => some desired

/-- The first loop of `diff_objects`: walk the fields of `desired`, taking
missing keys verbatim and recursively diffing common keys. -/
def diffFields (ofields : List (String × Json)) : List (String × Json) → List (String × Json)
  | [] => []
  | (k, dv) :: rest =>
    match alookup k ofields with
    | none => (k, dv) :: diffFields ofields rest
    | some ov =>
      match diffObjects ov dv with
      | none => diffFields ofields rest
      | some p => (k, p) :: diffFields ofields rest

end

/-- Model of `json_diff::diff` at the value level: the top-level patch, with `None`
(equal objects) encoded as the empty object, as in `unwrap_or_else(|| json!({}))`.
(The JSON string (de)serialization wrapping it in the Rust function is the
external `serde_json` codec and is not modelled.) -/
def diff (original desired : Json) : Json :=
  (diffObjects original desired).getD (.obj [])

/-! ## RFC-7396 merge (`json_patch::merge`, used by the twin reconciler)

```rust
pub fn merge(doc: &mut Value, patch: &Value) {
    if !patch.is_object() { *doc = patch.clone(); return; }
    if !doc.is_object() { *doc = Value::Object(Map::new()); }
    let map = doc.as_object_mut().unwrap();
    for (key, value) in patch.as_object().unwrap() {
        if value.is_null() { map.remove(key.as_str()); }
        else { merge(map.entry(key.as_str()).or_insert(Value::Null), value); }
    }
}
```
-/

mutual

/-- Model of `json_patch::merge` (RFC-7396 merge patch). -/
def merge (doc patch : Json) : Json :=
  match patch with
  | .obj pfields =>
    let base : List (String × Json) :=
      match doc with
      | .obj f => f
      | _ => []
    .obj (mergeFields base pfields)
  | _ => patch

/-- The field loop of `merge`: a `null` patch value removes the key, any
other patch value is merged into the current value at that key (`Null` when
absent, as in `entry(..).or_insert(Value::Null)`). -/
def mergeFields (doc : List (String × Json)) : List (String × Json) → List (String × Json)
  | [] => doc
  | (k, v) :: rest =>
    if v.isNull then mergeFields (aremove k doc) rest
    else mergeFields (ainsert k (merge ((alookup k doc).getD .null) v) doc) rest

end

/-! ## Lemmas about the association-list map operations -/

@[simp] theorem keys_nil : keys [] = [] := rfl

@[simp] theorem keys_cons (k : String) (v : Json) (l : List (String × Json)) :
    keys ((k, v) :: l) = k :: keys l := rfl

@[simp] theorem keys_append (l₁ l₂ : List (String × Json)) :
    keys (l₁ ++ l₂) = keys l₁ ++ keys l₂ := List.map_append _ _ _

theorem alookup_eq_none {k : String} : ∀ {l : List (String × Json)},
    alookup k l = none ↔ k ∉ keys l
  | [] => by simp [alookup]
  | (k', v) :: rest => by
    rw [alookup, keys_cons]
    by_cases h : k' = k
    · subst h
      simp
    · rw [if_neg h, List.mem_cons]
      have hne : ¬k = k' := fun hh => h hh.symm
      simp only [hne, false_or]
      exact alookup_eq_none

theorem mem_keys_of_alookup {k : String} {l : List (String × Json)} {v : Json}
    (h : alookup k l = some v) : k ∈ keys l := by
  by_contra hmem
  rw [← alookup_eq_none] at hmem
  simp [hmem] at h

theorem alookup_mem {k : String} : ∀ {l : List (String × Json)} {v : Json},
    alookup k l = some v → (k, v) ∈ l
  | [], _, h => by simp [alookup] at h
  | (k', v') :: rest, v, h => by
    rw [alookup] at h
    by_cases hk : k' = k
    · subst hk
      rw [if_pos rfl] at h
      cases h
      exact List.mem_cons_self _ _
    · rw [if_neg hk] at h
      exact List.mem_cons_of_mem _ (alookup_mem h)

theorem alookup_append (k : String) : ∀ (l₁ l₂ : List (String × Json)),
    alookup k (l₁ ++ l₂) = (alookup k l₁).or (alookup k l₂)
  | [], l₂ => by simp [alookup]
  | (k', v) :: rest, l₂ => by
    rw [List.cons_append]
    by_cases h : k' = k
    · rw [alookup, if_pos h, alookup, if_pos h]
      rfl
    · rw [alookup, if_neg h, alookup, if_neg h, alookup_append k rest l₂]

theorem alookup_ainsert_self (k : String) (v : Json) : ∀ (l : List (String × Json)),
    alookup k (ainsert k v l) = some v
  | [] => by rw [ainsert, alookup, if_pos rfl]
  | (k', v') :: rest => by
    rw [ainsert]
    rcases lt_trichotomy k k' with h | h | h
    · rw [if_pos (strLt_true h), alookup, if_pos rfl]
    · have h1 : ¬k < k' := by rw [h]; exact lt_irrefl k'
      rw [if_neg (strLt_false h1), if_pos h, alookup, if_pos rfl]
    · have h1 : ¬k < k' := not_lt_of_gt h
      have h2 : ¬k = k' := ne_of_gt h
      rw [if_neg (strLt_false h1), if_neg h2, alookup, if_neg (ne_of_lt h)]
      exact alookup_ainsert_self k v rest

theorem alookup_ainsert_ne {k k' : String} (v : Json) (hne : k' ≠ k) :
    ∀ (l : List (String × Json)), alookup k' (ainsert k v l) = alookup k' l
  | [] => by simp [ainsert, alookup, hne.symm]
  | (k'', v'') :: rest => by
    rw [ainsert]
    rcases lt_trichotomy k k'' with h | h | h
    · rw [if_pos (strLt_true h), alookup, if_neg (fun hh => hne hh.symm)]
    · have h1 : ¬k < k'' := by rw [h]; exact lt_irrefl k''
      rw [if_neg (strLt_false h1), if_pos h, alookup, if_neg (fun hh => hne hh.symm), alookup,
        if_neg (fun hh => hne (h.trans hh).symm)]
    · have h1 : ¬k < k'' := not_lt_of_gt h
      have h2 : ¬k = k'' := ne_of_gt h
      rw [if_neg (strLt_false h1), if_neg h2, alookup, alookup]
      by_cases h3 : k'' = k'
      · rw [if_pos h3, if_pos h3]
      · rw [if_neg h3, if_neg h3]
        exact alookup_ainsert_ne v hne rest

theorem alookup_aremove_ne {k k' : String} (hne : k' ≠ k) :
    ∀ (l : List (String × Json)), alookup k' (aremove k l) = alookup k' l
  | [] => by rw [aremove]
  | (k'', v'') :: rest => by
    rw [aremove]
    by_cases h : k = k''
    · rw [if_pos h, alookup, if_neg (fun hh => hne (h.trans hh).symm)]
    · rw [if_neg h, alookup, alookup]
      by_cases h3 : k'' = k'
      · rw [if_pos h3, if_pos h3]
      · rw [if_neg h3, if_neg h3]
        exact alookup_aremove_ne hne rest

theorem alookup_aremove_self {k : String} : ∀ {l : List (String × Json)},
    (keys l).Nodup → alookup k (aremove k l) = none
  | [], _ => by rw [aremove, alookup]
  | (k', v') :: rest, hnd => by
    rw [keys_cons, List.nodup_cons] at hnd
    rw [aremove]
    by_cases h : k = k'
    · rw [if_pos h, alookup_eq_none, h]
      exact hnd.1
    · rw [if_neg h, alookup, if_neg (fun hh => h hh.symm)]
      exact alookup_aremove_self hnd.2

theorem mem_keys_ainsert {x k : String} {v : Json} : ∀ {l : List (String × Json)},
    x ∈ keys (ainsert k v l) → x = k ∨ x ∈ keys l
  | [] => by
    intro hx
    rw [ainsert, keys_cons, keys_nil, List.mem_singleton] at hx
    exact Or.inl hx
  | (k', v') :: rest => by
    rw [ainsert]
    rcases lt_trichotomy k k' with h | h | h
    · rw [if_pos (strLt_true h), keys_cons]
      intro hx
      rw [List.mem_cons] at hx
      rcases hx with hx | hx
      · exact Or.inl hx
      · exact Or.inr hx
    · have h1 : ¬k < k' := by rw [h]; exact lt_irrefl k'
      rw [if_neg (strLt_false h1), if_pos h, keys_cons]
      intro hx
      rw [List.mem_cons] at hx
      rcases hx with hx | hx
      · exact Or.inl hx
      · exact Or.inr (by rw [keys_cons, List.mem_cons]; exact Or.inr hx)
    · have h1 : ¬k < k' := not_lt_of_gt h
      have h2 : ¬k = k' := ne_of_gt h
      rw [if_neg (strLt_false h1), if_neg h2, keys_cons]
      intro hx
      rw [List.mem_cons] at hx
      rcases hx with hx | hx
      · exact Or.inr (by rw [keys_cons, List.mem_cons]; exact Or.inl hx)
      · rcases mem_keys_ainsert hx with hx | hx
        · exact Or.inl hx
        · exact Or.inr (by rw [keys_cons, List.mem_cons]; exact Or.inr hx)

theorem keys_aremove_sublist (k : String) : ∀ (l : List (String × Json)),
    (keys (aremove k l)).Sublist (keys l)
  | [] => by rw [aremove]
  | (k', v') :: rest => by
    rw [aremove]
    by_cases h : k = k'
    · rw [if_pos h, keys_cons]
      exact List.sublist_cons_self k' (keys rest)
    · rw [if_neg h, keys_cons, keys_cons]
      exact (keys_aremove_sublist k rest).cons₂ k'

theorem sortedKeys_ainsert {k : String} {v : Json} : ∀ {l : List (String × Json)},
    SortedKeys l → SortedKeys (ainsert k v l)
  | [], _ => by
    rw [ainsert]
    unfold SortedKeys
    rw [keys_cons, keys_nil]
    exact List.pairwise_singleton _ _
  | (k', v') :: rest, hs => by
    have hs' := hs
    unfold SortedKeys at hs' ⊢
    rw [keys_cons, List.pairwise_cons] at hs'
    rw [ainsert]
    rcases lt_trichotomy k k' with h | h | h
    · rw [if_pos (strLt_true h), keys_cons, List.pairwise_cons]
      constructor
      · intro x hx
        rw [keys_cons, List.mem_cons] at hx
        rcases hx with hx | hx
        · rw [hx]; exact h
        · exact lt_trans h (hs'.1 x hx)
      · rw [keys_cons, List.pairwise_cons]
        exact hs'
    · have h1 : ¬k < k' := by rw [h]; exact lt_irrefl k'
      rw [if_neg (strLt_false h1), if_pos h, keys_cons, List.pairwise_cons]
      constructor
      · intro x hx
        rw [h]
        exact hs'.1 x hx
      · exact hs'.2
    · have h1 : ¬k < k' := not_lt_of_gt h
      have h2 : ¬k = k' := ne_of_gt h
      rw [if_neg (strLt_false h1), if_neg h2, keys_cons, List.pairwise_cons]
      constructor
      · intro x hx
        rcases mem_keys_ainsert hx with hx | hx
        · rw [hx]; exact h
        · exact hs'.1 x hx
      · exact sortedKeys_ainsert hs'.2

theorem sortedKeys_aremove {k : String} {l : List (String × Json)}
    (hs : SortedKeys l) : SortedKeys (aremove k l) :=
  List.Pairwise.sublist (keys_aremove_sublist k l) hs

theorem SortedKeys.nodup {l : List (String × Json)} (hs : SortedKeys l) :
    (keys l).Nodup :=
  hs.imp ne_of_lt

theorem alookup_ext : ∀ {l₁ l₂ : List (String × Json)},
    SortedKeys l₁ → SortedKeys l₂ → (∀ k, alookup k l₁ = alookup k l₂) → l₁ = l₂
  | [], [], _, _, _ => rfl
  | [], (k₂, v₂) :: r₂, _, _, h => by
    have hl := h k₂
    rw [alookup, alookup, if_pos rfl] at hl
    cases hl
  | (k₁, v₁) :: r₁, [], _, _, h => by
    have hl := h k₁
    rw [alookup, alookup, if_pos rfl] at hl
    cases hl
  | (k₁, v₁) :: r₁, (k₂, v₂) :: r₂, h₁, h₂, h => by
    unfold SortedKeys at h₁ h₂
    rw [keys_cons, List.pairwise_cons] at h₁ h₂
    have hk : k₁ = k₂ := by
      rcases lt_trichotomy k₁ k₂ with hlt | heq | hgt
      · exfalso
        have hl := h k₁
        rw [alookup, if_pos rfl, alookup, if_neg (fun hh => (ne_of_lt hlt) hh.symm)] at hl
        have hmem := mem_keys_of_alookup hl.symm
        exact absurd (h₂.1 k₁ hmem) (lt_asymm hlt)
      · exact heq
      · exfalso
        have hl := (h k₂).symm
        rw [alookup, if_pos rfl, alookup, if_neg (ne_of_gt hgt)] at hl
        have hmem := mem_keys_of_alookup hl.symm
        exact absurd (h₁.1 k₂ hmem) (lt_asymm hgt)
    subst hk
    have hv : v₁ = v₂ := by
      have hl := h k₁
      rw [alookup, if_pos rfl, alookup, if_pos rfl] at hl
      exact Option.some.inj hl
    subst hv
    have htl : r₁ = r₂ := by
      refine alookup_ext h₁.2 h₂.2 ?_
      intro k
      by_cases hkk : k = k₁
      · subst hkk
        have hn₁ : alookup k r₁ = none := by
          rw [alookup_eq_none]
          intro hm
          exact absurd rfl (ne_of_gt (h₁.1 k hm))
        have hn₂ : alookup k r₂ = none := by
          rw [alookup_eq_none]
          intro hm
          exact absurd rfl (ne_of_gt (h₂.1 k hm))
        rw [hn₁, hn₂]
      · have hl := h k
        rwa [alookup, if_neg (fun hh => hkk hh.symm), alookup,
          if_neg (fun hh => hkk hh.symm)] at hl
    rw [htl]


theorem opt_or_none (o : Option Json) : o.or none = o := by cases o <;> rfl

theorem alookup_mapInsertAll (k : String) : ∀ (l base : List (String × Json)),
    (keys l).Nodup → alookup k (mapInsertAll base l) = (alookup k l).or (alookup k base)
  | [], base, _ => by
    rw [mapInsertAll, List.foldl_nil, alookup]
    rfl
  | (k0, v0) :: rest, base, hnd => by
    rw [keys_cons, List.nodup_cons] at hnd
    have hstep : mapInsertAll base ((k0, v0) :: rest) = mapInsertAll (ainsert k0 v0 base) rest := by
      rw [mapInsertAll, mapInsertAll, List.foldl_cons]
    rw [hstep, alookup_mapInsertAll k rest (ainsert k0 v0 base) hnd.2, alookup]
    by_cases h : k0 = k
    · subst h
      rw [if_pos rfl, alookup_ainsert_self, alookup_eq_none.mpr hnd.1]
      rfl
    · rw [if_neg h, alookup_ainsert_ne v0 (fun hh => h hh.symm)]

theorem sortedKeys_mapInsertAll : ∀ (l : List (String × Json)) {base : List (String × Json)},
    SortedKeys base → SortedKeys (mapInsertAll base l)
  | [], _, hs => by rw [mapInsertAll, List.foldl_nil]; exact hs
  | (k0, v0) :: rest, base, hs => by
    have hstep : mapInsertAll base ((k0, v0) :: rest) = mapInsertAll (ainsert k0 v0 base) rest := by
      rw [mapInsertAll, mapInsertAll, List.foldl_cons]
    rw [hstep]
    exact sortedKeys_mapInsertAll rest (sortedKeys_ainsert hs)

theorem sortedKeys_nil : SortedKeys [] := List.Pairwise.nil

theorem sortedKeys_mergeFields : ∀ (pf : List (String × Json)) {doc : List (String × Json)},
    SortedKeys doc → SortedKeys (mergeFields doc pf)
  | [], _, hs => by rw [mergeFields]; exact hs
  | (k0, v0) :: rest, doc, hs => by
    rw [mergeFields]
    by_cases hv : v0.isNull
    · rw [if_pos hv]
      exact sortedKeys_mergeFields rest (sortedKeys_aremove hs)
    · rw [if_neg hv]
      exact sortedKeys_mergeFields rest (sortedKeys_ainsert hs)

theorem alookup_mergeFields_not_mem {k : String} : ∀ (pf doc : List (String × Json)),
    k ∉ keys pf → alookup k (mergeFields doc pf) = alookup k doc
  | [], doc, _ => by rw [mergeFields]
  | (k0, v0) :: rest, doc, hmem => by
    rw [keys_cons, List.mem_cons] at hmem
    push_neg at hmem
    rw [mergeFields]
    by_cases hv : v0.isNull
    · rw [if_pos hv, alookup_mergeFields_not_mem rest _ hmem.2, alookup_aremove_ne hmem.1]
    · rw [if_neg hv, alookup_mergeFields_not_mem rest _ hmem.2, alookup_ainsert_ne _ hmem.1]

theorem alookup_mergeFields_none {k : String} (pf doc : List (String × Json))
    (h : alookup k pf = none) : alookup k (mergeFields doc pf) = alookup k doc :=
  alookup_mergeFields_not_mem pf doc (alookup_eq_none.mp h)

theorem alookup_mergeFields_some {k : String} {v : Json} : ∀ (pf : List (String × Json))
    {doc : List (String × Json)}, SortedKeys doc → (keys pf).Nodup →
    alookup k pf = some v →
    alookup k (mergeFields doc pf) =
      if v.isNull then none else some (merge ((alookup k doc).getD .null) v)
  | [], _, _, _, h => by rw [alookup] at h; cases h
  | (k0, v0) :: rest, doc, hs, hnd, h => by
    rw [keys_cons, List.nodup_cons] at hnd
    rw [alookup] at h
    rw [mergeFields]
    by_cases hk : k0 = k
    · subst hk
      rw [if_pos rfl] at h
      have hv0 := Option.some.inj h
      subst hv0
      by_cases hv : v0.isNull
      · rw [if_pos hv, if_pos hv, alookup_mergeFields_not_mem rest _ hnd.1,
          alookup_aremove_self hs.nodup]
      · rw [if_neg hv, if_neg hv, alookup_mergeFields_not_mem rest _ hnd.1,
          alookup_ainsert_self]
    · rw [if_neg hk] at h
      have hne : k ≠ k0 := fun hh => hk hh.symm
      by_cases hv : v0.isNull
      · rw [if_pos hv, alookup_mergeFields_some rest (sortedKeys_aremove hs) hnd.2 h,
          alookup_aremove_ne hne]
      · rw [if_neg hv, alookup_mergeFields_some rest (sortedKeys_ainsert hs) hnd.2 h,
          alookup_ainsert_ne _ hne]

theorem keys_diffFields_sublist (ofields : List (String × Json)) :
    ∀ (df : List (String × Json)), (keys (diffFields ofields df)).Sublist (keys df)
  | [] => by rw [diffFields]
  | (k, dv) :: rest => by
    cases halo : alookup k ofields with
    | none =>
      simp only [diffFields, halo, keys_cons]
      exact (keys_diffFields_sublist ofields rest).cons₂ k
    | some ov =>
      cases hdo : diffObjects ov dv with
      | none =>
        simp only [diffFields, halo, hdo, keys_cons]
        exact (keys_diffFields_sublist ofields rest).cons k
      | some p =>
        simp only [diffFields, halo, hdo, keys_cons]
        exact (keys_diffFields_sublist ofields rest).cons₂ k

theorem alookup_diffFields_none {k : String} (ofields df : List (String × Json))
    (h : k ∉ keys df) : alookup k (diffFields ofields df) = none := by
  rw [alookup_eq_none]
  intro hmem
  exact h ((keys_diffFields_sublist ofields df).subset hmem)

theorem alookup_diffFields_miss {k : String} {dv : Json} (ofields : List (String × Json)) :
    ∀ {df : List (String × Json)}, (keys df).Nodup → alookup k df = some dv →
    alookup k ofields = none →
    alookup k (diffFields ofields df) = some dv
  | [], _, h, _ => by rw [alookup] at h; cases h
  | (k0, dv0) :: rest, hnd, h, hof => by
    rw [keys_cons, List.nodup_cons] at hnd
    rw [alookup] at h
    by_cases hk : k0 = k
    · subst hk
      rw [if_pos rfl] at h
      have hdv := Option.some.inj h
      subst hdv
      simp only [diffFields, hof]
      rw [alookup, if_pos rfl]
    · rw [if_neg hk] at h
      cases halo : alookup k0 ofields with
      | none =>
        simp only [diffFields, halo]
        rw [alookup, if_neg hk]
        exact alookup_diffFields_miss ofields hnd.2 h hof
      | some ov =>
        cases hdo : diffObjects ov dv0 with
        | none =>
          simp only [diffFields, halo, hdo]
          exact alookup_diffFields_miss ofields hnd.2 h hof
        | some p =>
          simp only [diffFields, halo, hdo]
          rw [alookup, if_neg hk]
          exact alookup_diffFields_miss ofields hnd.2 h hof

theorem alookup_diffFields_hit {k : String} {dv ov : Json} (ofields : List (String × Json)) :
    ∀ {df : List (String × Json)}, (keys df).Nodup → alookup k df = some dv →
    alookup k ofields = some ov →
    alookup k (diffFields ofields df) = diffObjects ov dv
  | [], _, h, _ => by rw [alookup] at h; cases h
  | (k0, dv0) :: rest, hnd, h, hof => by
    rw [keys_cons, List.nodup_cons] at hnd
    rw [alookup] at h
    by_cases hk : k0 = k
    · subst hk
      rw [if_pos rfl] at h
      have hdv := Option.some.inj h
      subst hdv
      cases hdo : diffObjects ov dv0 with
      | none =>
        simp only [diffFields, hof, hdo]
        exact alookup_diffFields_none ofields rest hnd.1
      | some p =>
        simp only [diffFields, hof, hdo]
        rw [alookup, if_pos rfl]
    · rw [if_neg hk] at h
      cases halo : alookup k0 ofields with
      | none =>
        simp only [diffFields, halo]
        rw [alookup, if_neg hk]
        exact alookup_diffFields_hit ofields hnd.2 h hof
      | some ov0 =>
        cases hdo : diffObjects ov0 dv0 with
        | none =>
          simp only [diffFields, halo, hdo]
          exact alookup_diffFields_hit ofields hnd.2 h hof
        | some p =>
          simp only [diffFields, halo, hdo]
          rw [alookup, if_neg hk]
          exact alookup_diffFields_hit ofields hnd.2 h hof

theorem keys_removed_sublist (df ofields : List (String × Json)) :
    (keys ((ofields.filter (fun p => (alookup p.1 df).isNone)).map
      (fun p => (p.1, Json.null)))).Sublist (keys ofields) := by
  have h1 : keys ((ofields.filter (fun p => (alookup p.1 df).isNone)).map
      (fun p => (p.1, Json.null))) =
      keys (ofields.filter (fun p => (alookup p.1 df).isNone)) := by
    rw [keys, List.map_map, keys]
    rfl
  rw [h1]
  exact (List.filter_sublist ofields).map Prod.fst

theorem mem_keys_removed_not_df {k : String} (df ofields : List (String × Json))
    (hmem : k ∈ keys ((ofields.filter (fun p => (alookup p.1 df).isNone)).map
      (fun p => (p.1, Json.null)))) : k ∉ keys df := by
  rw [keys, List.mem_map] at hmem
  obtain ⟨q, hq, hqk⟩ := hmem
  rw [List.mem_map] at hq
  obtain ⟨r, hr, hrq⟩ := hq
  rw [List.mem_filter] at hr
  have hcond := hr.2
  rw [Option.isNone_iff_eq_none, alookup_eq_none] at hcond
  have hfst : r.1 = k := by
    rw [← hrq] at hqk
    exact hqk
  rw [← hfst]
  exact hcond

theorem alookup_removed_some {k : String} {v : Json} (df : List (String × Json)) :
    ∀ (ofields : List (String × Json)), (keys ofields).Nodup →
    alookup k ofields = some v → alookup k df = none →
    alookup k ((ofields.filter (fun p => (alookup p.1 df).isNone)).map
      (fun p => (p.1, Json.null))) = some Json.null
  | [], _, hof, _ => by rw [alookup] at hof; cases hof
  | (k0, v0) :: rest, hnd, hof, hdf => by
    rw [keys_cons, List.nodup_cons] at hnd
    rw [alookup] at hof
    by_cases hk : k0 = k
    · subst hk
      simp only [List.filter_cons, hdf, Option.isNone_none, if_true, List.map_cons]
      rw [alookup, if_pos rfl]
    · rw [if_neg hk] at hof
      by_cases hcond : (alookup k0 df).isNone
      · simp only [List.filter_cons, hcond, if_true, List.map_cons]
        rw [alookup, if_neg hk]
        exact alookup_removed_some df rest hnd.2 hof hdf
      · simp only [List.filter_cons, hcond, if_false, Bool.false_eq_true]
        exact alookup_removed_some df rest hnd.2 hof hdf

theorem alookup_removed_none_left {k : String} (df ofields : List (String × Json))
    (h : k ∉ keys ofields) :
    alookup k ((ofields.filter (fun p => (alookup p.1 df).isNone)).map
      (fun p => (p.1, Json.null))) = none := by
  rw [alookup_eq_none]
  intro hmem
  exact h ((keys_removed_sublist df ofields).subset hmem)

theorem alookup_removed_none_right {k : String} {w : Json} (df ofields : List (String × Json))
    (h : alookup k df = some w) :
    alookup k ((ofields.filter (fun p => (alookup p.1 df).isNone)).map
      (fun p => (p.1, Json.null))) = none := by
  rw [alookup_eq_none]
  intro hmem
  exact absurd (mem_keys_of_alookup h) (mem_keys_removed_not_df df ofields hmem)

theorem isNull_iff (j : Json) : j.isNull = true ↔ j = Json.null := by
  cases j <;> simp [Json.isNull]

theorem diffObjects_eq_none_iff (o d : Json) : diffObjects o d = none ↔ o = d := by
  constructor
  · intro h
    by_contra hne
    rw [diffObjects.eq_def, if_neg hne] at h
    cases d <;> cases o <;> exact Option.noConfusion h
  · intro h
    rw [diffObjects.eq_def, if_pos h]

theorem diffObjects_some_null {o d p : Json} (h : diffObjects o d = some p)
    (hn : p.isNull = true) : d = Json.null := by
  by_cases he : o = d
  · rw [diffObjects.eq_def, if_pos he] at h
    cases h
  · rw [diffObjects.eq_def, if_neg he] at h
    cases d with
    | null => rfl
    | bool b => cases h; simp [Json.isNull] at hn
    | num n => cases h; simp [Json.isNull] at hn
    | str s => cases h; simp [Json.isNull] at hn
    | arr l => cases h; simp [Json.isNull] at hn
    | obj df =>
      cases o with
      | obj ofields => cases h; simp [Json.isNull] at hn
      | null => cases h; simp [Json.isNull] at hn
      | bool b => cases h; simp [Json.isNull] at hn
      | num n => cases h; simp [Json.isNull] at hn
      | str s => cases h; simp [Json.isNull] at hn
      | arr l => cases h; simp [Json.isNull] at hn

theorem wf_obj_sorted {l : List (String × Json)} (h : (Json.obj l).wf = true) :
    SortedKeys l := by
  rw [Json.wf, Bool.and_eq_true] at h
  exact (chainLtKeys_iff_sortedKeys l).mp h.1

theorem wfFields_mem : ∀ {l : List (String × Json)} {k : String} {v : Json},
    wfFields l = true → (k, v) ∈ l → v.wf = true
  | [], _, _, _, hm => absurd hm (List.not_mem_nil _)
  | (k0, v0) :: rest, k, v, hwf, hm => by
    rw [wfFields, Bool.and_eq_true] at hwf
    rcases List.mem_cons.mp hm with hm | hm
    · cases hm
      exact hwf.1
    · exact wfFields_mem hwf.2 hm

theorem wf_obj_mem {l : List (String × Json)} {k : String} {v : Json}
    (h : (Json.obj l).wf = true) (hm : (k, v) ∈ l) : v.wf = true := by
  rw [Json.wf, Bool.and_eq_true] at h
  exact wfFields_mem h.2 hm

theorem noNullsFields_mem : ∀ {l : List (String × Json)} {k : String} {v : Json},
    noNullsFields l = true → (k, v) ∈ l → v.isNull = false ∧ v.noNulls = true
  | [], _, _, _, hm => absurd hm (List.not_mem_nil _)
  | (k0, v0) :: rest, k, v, hnn, hm => by
    rw [noNullsFields, Bool.and_eq_true, Bool.and_eq_true] at hnn
    rcases List.mem_cons.mp hm with hm | hm
    · cases hm
      exact ⟨by simpa using hnn.1.1, hnn.1.2⟩
    · exact noNullsFields_mem hnn.2 hm

theorem noNulls_obj_mem {l : List (String × Json)} {k : String} {v : Json}
    (h : (Json.obj l).noNulls = true) (hm : (k, v) ∈ l) :
    v.isNull = false ∧ v.noNulls = true := by
  rw [Json.noNulls] at h
  exact noNullsFields_mem h hm

theorem sizeOf_lt_of_mem_fields : ∀ {l : List (String × Json)} {k : String} {v : Json},
    (k, v) ∈ l → sizeOf v < sizeOf (Json.obj l)
  | (k0, v0) :: rest, k, v, hm => by
    rcases List.mem_cons.mp hm with hm | hm
    · cases hm
      simp only [Json.obj.sizeOf_spec, List.cons.sizeOf_spec, Prod.mk.sizeOf_spec]
      omega
    · have ih := sizeOf_lt_of_mem_fields hm
      simp only [Json.obj.sizeOf_spec, List.cons.sizeOf_spec, Prod.mk.sizeOf_spec] at ih ⊢
      omega

/-- Merging a well-formed patch that contains no null fields into the
non-object document `null` reproduces the patch exactly. -/
theorem merge_empty_eq : ∀ (d : Json), d.wf = true → d.noNulls = true → merge .null d = d
  | .null, _, _ => rfl
  | .bool _, _, _ => rfl
  | .num _, _, _ => rfl
  | .str _, _, _ => rfl
  | .arr _, _, _ => rfl
  | .obj df, hwf, hnn => by
    show Json.obj (mergeFields [] df) = Json.obj df
    congr 1
    refine alookup_ext (sortedKeys_mergeFields df sortedKeys_nil) (wf_obj_sorted hwf) ?_
    intro k
    cases halo : alookup k df with
    | none =>
      rw [alookup_mergeFields_none df [] halo, alookup]
    | some v =>
      have hm := alookup_mem halo
      have hwfv := wf_obj_mem hwf hm
      have hnnv := noNulls_obj_mem hnn hm
      have hnv : ¬v.isNull = true := by
        rw [hnnv.1]
        exact Bool.false_ne_true
      rw [alookup_mergeFields_some df sortedKeys_nil (wf_obj_sorted hwf).nodup halo,
        if_neg hnv,
        show (alookup k ([] : List (String × Json))).getD Json.null = Json.null from rfl,
        merge_empty_eq v hwfv hnnv.2]
termination_by d _ _ => sizeOf d
decreasing_by
  simp_wf
  have hlt := sizeOf_lt_of_mem_fields hm
  simp only [Json.obj.sizeOf_spec] at hlt
  omega

/-- Core induction for the diff/merge round trip: whenever `diff_objects`
returns a patch and the desired value is well-formed with no null fields,
merging the patch into the original reproduces the desired value. -/
theorem diff_merge_aux : ∀ (d o p : Json), o.wf = true → d.wf = true → d.noNulls = true →
    diffObjects o d = some p → merge o p = d
  | .null, o, p, _, _, _, h => by
    by_cases he : o = Json.null
    · rw [diffObjects.eq_def, if_pos he] at h
      cases h
    · rw [diffObjects.eq_def, if_neg he] at h
      cases h
      rfl
  | .bool b, o, p, _, _, _, h => by
    by_cases he : o = Json.bool b
    · rw [diffObjects.eq_def, if_pos he] at h
      cases h
    · rw [diffObjects.eq_def, if_neg he] at h
      cases h
      rfl
  | .num n, o, p, _, _, _, h => by
    by_cases he : o = Json.num n
    · rw [diffObjects.eq_def, if_pos he] at h
      cases h
    · rw [diffObjects.eq_def, if_neg he] at h
      cases h
      rfl
  | .str s, o, p, _, _, _, h => by
    by_cases he : o = Json.str s
    · rw [diffObjects.eq_def, if_pos he] at h
      cases h
    · rw [diffObjects.eq_def, if_neg he] at h
      cases h
      rfl
  | .arr l, o, p, _, _, _, h => by
    by_cases he : o = Json.arr l
    · rw [diffObjects.eq_def, if_pos he] at h
      cases h
    · rw [diffObjects.eq_def, if_neg he] at h
      cases h
      rfl
  | .obj df, o, p, hwfo, hwfd, hnn, h => by
    by_cases he : o = Json.obj df
    · rw [diffObjects.eq_def, if_pos he] at h
      cases h
    · rw [diffObjects.eq_def, if_neg he] at h
      cases o with
      | null =>
        cases h
        exact merge_empty_eq (Json.obj df) hwfd hnn
      | bool b =>
        cases h
        calc merge (Json.bool b) (Json.obj df) = merge Json.null (Json.obj df) := rfl
          _ = Json.obj df := merge_empty_eq (Json.obj df) hwfd hnn
      | num n =>
        cases h
        calc merge (Json.num n) (Json.obj df) = merge Json.null (Json.obj df) := rfl
          _ = Json.obj df := merge_empty_eq (Json.obj df) hwfd hnn
      | str s =>
        cases h
        calc merge (Json.str s) (Json.obj df) = merge Json.null (Json.obj df) := rfl
          _ = Json.obj df := merge_empty_eq (Json.obj df) hwfd hnn
      | arr l =>
        cases h
        calc merge (Json.arr l) (Json.obj df) = merge Json.null (Json.obj df) := rfl
          _ = Json.obj df := merge_empty_eq (Json.obj df) hwfd hnn
      | obj ofields =>
        have hp := (Option.some.inj h).symm
        subst hp
        show Json.obj (mergeFields ofields (mapInsertAll [] (diffFields ofields df ++
          (ofields.filter (fun q => (alookup q.1 df).isNone)).map (fun q => (q.1, Json.null)))))
          = Json.obj df
        congr 1
        have hso : SortedKeys ofields := wf_obj_sorted hwfo
        have hsd : SortedKeys df := wf_obj_sorted hwfd
        have hnd_pf : (keys (diffFields ofields df)).Nodup :=
          (keys_diffFields_sublist ofields df).nodup hsd.nodup
        have hnd_rem : (keys ((ofields.filter (fun q => (alookup q.1 df).isNone)).map
            (fun q => (q.1, Json.null)))).Nodup :=
          (keys_removed_sublist df ofields).nodup hso.nodup
        have hdisj : ∀ x ∈ keys (diffFields ofields df),
            x ∉ keys ((ofields.filter (fun q => (alookup q.1 df).isNone)).map
              (fun q => (q.1, Json.null))) := by
          intro x hx hx2
          exact mem_keys_removed_not_df df ofields hx2
            ((keys_diffFields_sublist ofields df).subset hx)
        have hnd_all : (keys (diffFields ofields df ++
            (ofields.filter (fun q => (alookup q.1 df).isNone)).map
              (fun q => (q.1, Json.null)))).Nodup := by
          rw [keys_append, List.nodup_append]
          exact ⟨hnd_pf, hnd_rem, hdisj⟩
        have hnd_patch : (keys (mapInsertAll [] (diffFields ofields df ++
            (ofields.filter (fun q => (alookup q.1 df).isNone)).map
              (fun q => (q.1, Json.null))))).Nodup :=
          (sortedKeys_mapInsertAll _ sortedKeys_nil).nodup
        refine alookup_ext (sortedKeys_mergeFields _ hso) hsd ?_
        intro k
        have hplook : alookup k (mapInsertAll [] (diffFields ofields df ++
            (ofields.filter (fun q => (alookup q.1 df).isNone)).map
              (fun q => (q.1, Json.null)))) =
            (alookup k (diffFields ofields df)).or
              (alookup k ((ofields.filter (fun q => (alookup q.1 df).isNone)).map
                (fun q => (q.1, Json.null)))) := by
          rw [alookup_mapInsertAll k _ [] hnd_all, alookup_append,
            show alookup k ([] : List (String × Json)) = none from rfl, opt_or_none]
        cases hdfk : alookup k df with
        | some dv =>
          have hmemd := alookup_mem hdfk
          have hwfdv := wf_obj_mem hwfd hmemd
          have hnndv := noNulls_obj_mem hnn hmemd
          have hrem_none := alookup_removed_none_right df ofields hdfk
          cases hofk : alookup k ofields with
          | some ov =>
            have hwfov := wf_obj_mem hwfo (alookup_mem hofk)
            have hpf : alookup k (diffFields ofields df) = diffObjects ov dv :=
              alookup_diffFields_hit ofields hsd.nodup hdfk hofk
            cases hdo : diffObjects ov dv with
            | none =>
              have hovdv := (diffObjects_eq_none_iff ov dv).mp hdo
              have hplook_none : alookup k (mapInsertAll [] (diffFields ofields df ++
                  (ofields.filter (fun q => (alookup q.1 df).isNone)).map
                    (fun q => (q.1, Json.null)))) = none := by
                rw [hplook, hpf, hdo, hrem_none]
                rfl
              rw [alookup_mergeFields_none _ _ hplook_none, hofk, hovdv]
            | some pv =>
              have hpv_not_null : ¬pv.isNull = true := by
                intro hpn
                have hdvnull := diffObjects_some_null hdo hpn
                rw [hdvnull] at hnndv
                simp [Json.isNull] at hnndv
              have hplook_some : alookup k (mapInsertAll [] (diffFields ofields df ++
                  (ofields.filter (fun q => (alookup q.1 df).isNone)).map
                    (fun q => (q.1, Json.null)))) = some pv := by
                rw [hplook, hpf, hdo]
                rfl
              rw [alookup_mergeFields_some _ hso hnd_patch hplook_some, if_neg hpv_not_null,
                hofk, show (some ov).getD Json.null = ov from rfl,
                diff_merge_aux dv ov pv hwfov hwfdv hnndv.2 hdo]
          | none =>
            have hpf : alookup k (diffFields ofields df) = some dv :=
              alookup_diffFields_miss ofields hsd.nodup hdfk hofk
            have hplook_some : alookup k (mapInsertAll [] (diffFields ofields df ++
                (ofields.filter (fun q => (alookup q.1 df).isNone)).map
                  (fun q => (q.1, Json.null)))) = some dv := by
              rw [hplook, hpf]
              rfl
            have hdv_not_null : ¬dv.isNull = true := by
              rw [hnndv.1]
              exact Bool.false_ne_true
            rw [alookup_mergeFields_some _ hso hnd_patch hplook_some, if_neg hdv_not_null,
              hofk, show (none : Option Json).getD Json.null = Json.null from rfl,
              merge_empty_eq dv hwfdv hnndv.2]
        | none =>
          have hpf : alookup k (diffFields ofields df) = none :=
            alookup_diffFields_none ofields df (alookup_eq_none.mp hdfk)
          cases hofk : alookup k ofields with
          | some ov =>
            have hrem_some := alookup_removed_some df ofields hso.nodup hofk hdfk
            have hplook_some : alookup k (mapInsertAll [] (diffFields ofields df ++
                (ofields.filter (fun q => (alookup q.1 df).isNone)).map
                  (fun q => (q.1, Json.null)))) = some Json.null := by
              rw [hplook, hpf, hrem_some]
              rfl
            rw [alookup_mergeFields_some _ hso hnd_patch hplook_some,
              if_pos (show Json.null.isNull = true from rfl)]
          | none =>
            have hplook_none : alookup k (mapInsertAll [] (diffFields ofields df ++
                (ofields.filter (fun q => (alookup q.1 df).isNone)).map
                  (fun q => (q.1, Json.null)))) = none := by
              rw [hplook, hpf,
                alookup_removed_none_left df ofields (alookup_eq_none.mp hofk)]
              rfl
            rw [alookup_mergeFields_none _ _ hplook_none, hofk]
termination_by d _ _ _ _ _ _ => sizeOf d
decreasing_by
  simp_wf
  have hlt := sizeOf_lt_of_mem_fields hmemd
  simp only [Json.obj.sizeOf_spec] at hlt
  omega


/-- The two JSON objects of the repository test `json_diff::test::complex_test`
(also scenario S1 of the specification). -/
def s1Original : Json :=
  .obj [("a", .str "a"), ("b", .str "b"), ("c", .str "c"),
    ("d", .obj [("e", .str "e"), ("f", .obj [("g", .num 0)])])]

def s1Desired : Json :=
  .obj [("a", .str "a"), ("b", .num 13),
    ("d", .obj [("e", .str "e"), ("f", .obj [("h", .num 0)])]), ("i", .str "i")]

/-- The expected patch of scenario S1 / `complex_test`, reproduced literally. -/
theorem s1_diff_eval :
    diff s1Original s1Desired =
      .obj [("b", .num 13), ("c", .null),
        ("d", .obj [("f", .obj [("g", .null), ("h", .num 0)])]), ("i", .str "i")] := by
  decide

/-- C1 (amended): for all pairs of well-formed JSON objects whose desired
value has no `null` object field (at any depth outside arrays), applying the
patch produced by `json_diff::diff` to the original via the RFC-7396 merge
yields exactly the desired object.  The diff itself is object-recursive
exactly as the spec describes: keys only in `desired` are taken verbatim,
common keys are diffed recursively, keys only in `original` are encoded as
`null`, and non-object values are replaced wholesale (definition
`diffObjects`, embedded from `src/spotflow/src/iothub/json_diff.rs`). -/
theorem C1_roundtrip_nullfree (original desired : Json)
    (hwo : original.wf = true) (hwd : desired.wf = true)
    (ho : original.isObj = true) (_hd : desired.isObj = true)
    (hnn : desired.noNulls = true) :
    merge original (diff original desired) = desired := by
  rw [diff]
  cases hdo : diffObjects original desired with
  | none =>
    have heq := (diffObjects_eq_none_iff _ _).mp hdo
    cases original with
    | obj f =>
      rw [← heq]
      rfl
    | null => simp [Json.isObj] at ho
    | bool b => simp [Json.isObj] at ho
    | num n => simp [Json.isObj] at ho
    | str s => simp [Json.isObj] at ho
    | arr l => simp [Json.isObj] at ho
  | some p => exact diff_merge_aux desired original p hwo hwd hnn hdo

/-- C1 witness: the round-trip theorem applied to the concrete object pair
of repository test `complex_test` (spec scenario S1). -/
theorem C1_roundtrip_witness : merge s1Original (diff s1Original s1Desired) = s1Desired :=
  C1_roundtrip_nullfree s1Original s1Desired (by decide) (by decide) (by decide) (by decide)
    (by decide)

/-- C1 counterexample: the round-trip law as stated — quantified over *all*
JSON object pairs — fails as soon as the desired object maps a key to
`null`: the diff keeps the `null` verbatim, and the RFC-7396 merge then
*removes* the key instead of setting it to `null`.  Here
`original = {"a": 1}` and `desired = {"a": null}`, both well-formed
objects, yet applying the produced patch to the original gives `{}`, not
the desired object. -/
theorem C1_roundtrip_counterexample :
    (Json.obj [("a", Json.num 1)]).wf = true ∧
    (Json.obj [("a", Json.null)]).wf = true ∧
    (Json.obj [("a", Json.num 1)]).isObj = true ∧
    (Json.obj [("a", Json.null)]).isObj = true ∧
    merge (Json.obj [("a", Json.num 1)])
        (diff (Json.obj [("a", Json.num 1)]) (Json.obj [("a", Json.null)])) ≠
      Json.obj [("a", Json.null)] := by
  decide


/-! ## Twin state

Embedded from `src/spotflow/src/persistence/twins.rs` (`Twin`, `TwinUpdate`,
`Twin::update`) and `src/spotflow/src/iothub/twins/mod.rs` (`DeviceTwin`).
Versions (`u64` in Rust) are modelled as `Nat`; the sqlite store writes
(`save_desired_properties` / `save_reported_properties`) are I/O performed
after the in-memory state change and are modelled as succeeding; JSON
payload parsing happens before the modelled functions are entered, so they
receive the parsed `TwinUpdate` value. -/

structure Twin where
  version : Nat
  properties : Json
deriving Repr, DecidableEq

structure TwinUpdate where
  version : Option Nat
  patch : Json
deriving Repr, DecidableEq

/-- Model of `Twin::update` (`src/spotflow/src/persistence/twins.rs:24-49`): a patch
with no `$version` merges and auto-increments; a versioned patch at
`new_version ≤ current` is ignored; at `current + 1` it merges; any later
version fails (`bail!`). -/
def Twin.update (t : Twin) (u : TwinUpdate) : Except String Twin :=
  match u.version with
  | none => .ok ⟨t.version + 1, merge t.properties u.patch⟩
  | some newVersion =>
    if newVersion ≤ t.version then .ok t
    else if newVersion = t.version + 1 then .ok ⟨newVersion, merge t.properties u.patch⟩
    else .error "Ignoring unexpected patch of a twin: it would skip updates"

/-- The in-memory state of `DeviceTwin`: the two snapshots and the queue of
buffered desired-property updates. -/
structure DeviceTwin where
  desired : Option Twin
  reported : Option Twin
  desiredPropertiesUpdates : List TwinUpdate
deriving Repr, DecidableEq

/-- Model of `PropertiesUpdateError` (`src/spotflow/src/iothub/handlers/twins.rs`). -/
inductive PropertiesUpdateError where
  | patchVersionMismatch (currentVersion patchVersion : Nat)
  | other (msg : String)
deriving Repr, DecidableEq

/-- The `while let Some(update) = self.desired_properties_updates.pop_front()`
drain loop of `DeviceTwin::set_desired_properties`: buffered updates are
applied in order via `Twin::update`; the first failing update aborts the
loop (the failing update already popped), returning the partially drained
twin, the remaining queue and `false`. -/
def drainUpdates : Twin → List TwinUpdate → Twin × List TwinUpdate × Bool
  | t, [] => (t, [], true)
  | t, u :: rest =>
    match t.update u with
    | .ok t2 => drainUpdates t2 rest
    | .error _ => (t, rest, false)

/-- Model of `DeviceTwin::set_desired_properties` (`iothub/twins/mod.rs:118-155`):
ignore a server snapshot whose version is *strictly below* the local one;
otherwise overwrite the snapshot, drain the buffered updates, and (on
success) dispatch one `DesiredUpdated` notification carrying the final
version.  Result: new state, emitted notification versions, success flag. -/
def DeviceTwin.setDesiredProperties (s : DeviceTwin) (version : Nat) (properties : Json) :
    DeviceTwin × List Nat × Bool :=
  match s.desired with
  | some twin =>
    if version < twin.version then (s, [], true)
    else
      let r := drainUpdates ⟨version, properties⟩ s.desiredPropertiesUpdates
      if r.2.2 then (⟨some r.1, s.reported, r.2.1⟩, [r.1.version], true)
      else (⟨some r.1, s.reported, r.2.1⟩, [], false)
  | none =>
    let r := drainUpdates ⟨version, properties⟩ s.desiredPropertiesUpdates
    if r.2.2 then (⟨some r.1, s.reported, r.2.1⟩, [r.1.version], true)
    else (⟨some r.1, s.reported, r.2.1⟩, [], false)

/-- Model of `DeviceTwin::set_reported_properties` (`iothub/twins/mod.rs:85-116`):
ignore a snapshot whose version is strictly below the local one, otherwise
overwrite. -/
def DeviceTwin.setReportedProperties (s : DeviceTwin) (version : Nat) (properties : Json) :
    DeviceTwin :=
  match s.reported with
  | some twin =>
    if version < twin.version then s
    else ⟨s.desired, some ⟨version, properties⟩, s.desiredPropertiesUpdates⟩
  | none => ⟨s.desired, some ⟨version, properties⟩, s.desiredPropertiesUpdates⟩

/-- Model of `DeviceTwin::update_desired_properties` (`iothub/twins/mod.rs:157-198`):
reject a body version that differs from the topic version; buffer the patch
while no snapshot exists; apply it only at exactly `current + 1`; otherwise
return `PatchVersionMismatch`.  Result: new state, emitted `DesiredUpdated`
notification versions, and the returned error (if any). -/
def DeviceTwin.updateDesiredProperties (s : DeviceTwin) (version : Nat) (update : TwinUpdate) :
    DeviceTwin × List Nat × Option PropertiesUpdateError :=
  if update.version ≠ some version then
    (s, [], some (.other "Mismatched version in path and in body."))
  else
    match s.desired with
    | none =>
      (⟨s.desired, s.reported, s.desiredPropertiesUpdates ++ [update]⟩, [], none)
    | some twin =>
      if version = twin.version + 1 then
        (⟨some ⟨version, merge twin.properties update.patch⟩, s.reported,
          s.desiredPropertiesUpdates⟩, [version], none)
      else
        (s, [], some (.patchVersionMismatch twin.version version))

/-- Model of `DeviceTwin::update_reported_properties` (`iothub/twins/mod.rs:200-223`):
fails when reported properties are not loaded, otherwise merges at the
auto-incremented version. -/
def DeviceTwin.updateReportedProperties (s : DeviceTwin) (u : TwinUpdate) :
    DeviceTwin × Bool :=
  match s.reported with
  | none => (s, false)
  | some twin =>
    (⟨s.desired, some ⟨twin.version + 1, merge twin.properties u.patch⟩,
      s.desiredPropertiesUpdates⟩, true)

/-- Model of `DeviceTwin::set_twins` (`iothub/twins/mod.rs:250-259`): install the
desired snapshot, then — unless installing the desired one failed — the
reported snapshot. -/
def DeviceTwin.setTwins (s : DeviceTwin) (desired reported : Twin) :
    DeviceTwin × List Nat × Bool :=
  let r := s.setDesiredProperties desired.version desired.properties
  if r.2.2 then
    (r.1.setReportedProperties reported.version reported.properties, r.2.1, true)
  else (r.1, r.2.1, false)

/-- One externally triggered twin operation. -/
inductive TwinOp where
  | setTwins (desired reported : Twin)
  | updateDesired (version : Nat) (update : TwinUpdate)
  | updateReported (update : TwinUpdate)
deriving Repr, DecidableEq

/-- Execute one operation; returns the new state and the versions carried by
the `DesiredUpdated` notifications it dispatched. -/
def DeviceTwin.step (s : DeviceTwin) : TwinOp → DeviceTwin × List Nat
  | .setTwins d r =>
    let x := s.setTwins d r
    (x.1, x.2.1)
  | .updateDesired v u =>
    let x := s.updateDesiredProperties v u
    (x.1, x.2.1)
  | .updateReported u => ((s.updateReportedProperties u).1, [])

/-- Execute a sequence of operations, concatenating the `DesiredUpdated`
notification versions in dispatch order. -/
def DeviceTwin.run (s : DeviceTwin) : List TwinOp → DeviceTwin × List Nat
  | [] => (s, [])
  | op :: rest =>
    let x := s.step op
    let y := x.1.run rest
    (y.1, x.2 ++ y.2)

/-- The version of the local desired snapshot, when one exists. -/
def desiredVersion (s : DeviceTwin) : Option Nat := s.desired.map Twin.version


/-! ## Lemmas about twin operations -/

theorem Twin.update_version_le {t t2 : Twin} {u : TwinUpdate} (h : t.update u = .ok t2) :
    t.version ≤ t2.version := by
  cases hu : u.version with
  | none =>
    simp only [Twin.update, hu] at h
    cases h
    exact Nat.le_succ _
  | some nv =>
    simp only [Twin.update, hu] at h
    by_cases h1 : nv ≤ t.version
    · rw [if_pos h1] at h
      cases h
      exact le_refl _
    · rw [if_neg h1] at h
      by_cases h2 : nv = t.version + 1
      · rw [if_pos h2] at h
        cases h
        show t.version ≤ nv
        omega
      · rw [if_neg h2] at h
        cases h

theorem drainUpdates_version_le : ∀ (q : List TwinUpdate) (t : Twin),
    t.version ≤ (drainUpdates t q).1.version
  | [], t => le_refl _
  | u :: rest, t => by
    rw [drainUpdates]
    cases hu : t.update u with
    | ok t2 => exact le_trans (Twin.update_version_le hu) (drainUpdates_version_le rest t2)
    | error e => exact le_refl _

theorem setReported_desired (s : DeviceTwin) (v : Nat) (p : Json) :
    (s.setReportedProperties v p).desired = s.desired := by
  cases hr : s.reported <;> simp only [DeviceTwin.setReportedProperties, hr]
  split <;> rfl

theorem setDesired_version_mono (s : DeviceTwin) (v : Nat) (p : Json) {w : Nat}
    (h : desiredVersion s = some w) :
    ∃ w2, desiredVersion (s.setDesiredProperties v p).1 = some w2 ∧ w ≤ w2 := by
  rw [desiredVersion] at h
  cases hd : s.desired with
  | none =>
    rw [hd] at h
    cases h
  | some twin =>
    rw [hd] at h
    have hw : twin.version = w := Option.some.inj h
    simp only [DeviceTwin.setDesiredProperties, hd]
    by_cases hlt : v < twin.version
    · rw [if_pos hlt]
      exact ⟨w, by rw [desiredVersion, hd, Option.map_some', hw], le_refl w⟩
    · rw [if_neg hlt]
      have h1 : v ≤ (drainUpdates ⟨v, p⟩ s.desiredPropertiesUpdates).1.version :=
        drainUpdates_version_le s.desiredPropertiesUpdates ⟨v, p⟩
      by_cases hok : (drainUpdates ⟨v, p⟩ s.desiredPropertiesUpdates).2.2
      · rw [if_pos hok]
        exact ⟨(drainUpdates ⟨v, p⟩ s.desiredPropertiesUpdates).1.version, rfl, by omega⟩
      · rw [if_neg hok]
        exact ⟨(drainUpdates ⟨v, p⟩ s.desiredPropertiesUpdates).1.version, rfl, by omega⟩

theorem setDesired_notif {s : DeviceTwin} {v : Nat} {p : Json} {n : Nat}
    (h : n ∈ (s.setDesiredProperties v p).2.1) :
    desiredVersion (s.setDesiredProperties v p).1 = some n := by
  cases hd : s.desired with
  | none =>
    simp only [DeviceTwin.setDesiredProperties, hd] at h ⊢
    by_cases hok : (drainUpdates ⟨v, p⟩ s.desiredPropertiesUpdates).2.2
    · rw [if_pos hok] at h ⊢
      rcases List.mem_singleton.mp h with rfl
      rfl
    · rw [if_neg hok] at h
      cases h
  | some twin =>
    simp only [DeviceTwin.setDesiredProperties, hd] at h ⊢
    by_cases hlt : v < twin.version
    · rw [if_pos hlt] at h
      cases h
    · rw [if_neg hlt] at h ⊢
      by_cases hok : (drainUpdates ⟨v, p⟩ s.desiredPropertiesUpdates).2.2
      · rw [if_pos hok] at h ⊢
        rcases List.mem_singleton.mp h with rfl
        rfl
      · rw [if_neg hok] at h
        cases h

theorem step_version_mono (s : DeviceTwin) (op : TwinOp) {w : Nat}
    (h : desiredVersion s = some w) :
    ∃ w2, desiredVersion (s.step op).1 = some w2 ∧ w ≤ w2 := by
  cases op with
  | setTwins d r =>
    simp only [DeviceTwin.step, DeviceTwin.setTwins]
    obtain ⟨w2, hw2, hle⟩ := setDesired_version_mono s d.version d.properties h
    by_cases hok : (s.setDesiredProperties d.version d.properties).2.2
    · rw [if_pos hok]
      refine ⟨w2, ?_, hle⟩
      rw [desiredVersion, setReported_desired, ← desiredVersion, hw2]
    · rw [if_neg hok]
      exact ⟨w2, hw2, hle⟩
  | updateDesired v u =>
    rw [desiredVersion] at h
    cases hd : s.desired with
    | none =>
      rw [hd] at h
      cases h
    | some twin =>
      rw [hd] at h
      have hw : twin.version = w := Option.some.inj h
      simp only [DeviceTwin.step, DeviceTwin.updateDesiredProperties, hd]
      by_cases hv : u.version ≠ some v
      · rw [if_pos hv]
        exact ⟨w, by rw [desiredVersion, hd, Option.map_some', hw], le_refl w⟩
      · rw [if_neg hv]
        by_cases heq : v = twin.version + 1
        · rw [if_pos heq]
          exact ⟨v, rfl, by omega⟩
        · rw [if_neg heq]
          exact ⟨w, by rw [desiredVersion, hd, Option.map_some', hw], le_refl w⟩
  | updateReported u =>
    simp only [DeviceTwin.step, DeviceTwin.updateReportedProperties]
    cases hr : s.reported
    · exact ⟨w, h, le_refl w⟩
    · exact ⟨w, h, le_refl w⟩

theorem step_notif {s : DeviceTwin} {op : TwinOp} {n : Nat}
    (h : n ∈ (s.step op).2) : desiredVersion (s.step op).1 = some n := by
  cases op with
  | setTwins d r =>
    simp only [DeviceTwin.step, DeviceTwin.setTwins] at h ⊢
    by_cases hok : (s.setDesiredProperties d.version d.properties).2.2
    · rw [if_pos hok] at h ⊢
      rw [desiredVersion, setReported_desired, ← desiredVersion]
      exact setDesired_notif h
    · rw [if_neg hok] at h ⊢
      exact setDesired_notif h
  | updateDesired v u =>
    cases hd : s.desired with
    | none =>
      simp only [DeviceTwin.step, DeviceTwin.updateDesiredProperties, hd] at h ⊢
      by_cases hv : u.version ≠ some v
      · rw [if_pos hv] at h
        cases h
      · rw [if_neg hv] at h
        cases h
    | some twin =>
      simp only [DeviceTwin.step, DeviceTwin.updateDesiredProperties, hd] at h ⊢
      by_cases hv : u.version ≠ some v
      · rw [if_pos hv] at h
        cases h
      · rw [if_neg hv] at h ⊢
        by_cases heq : v = twin.version + 1
        · rw [if_pos heq] at h ⊢
          rcases List.mem_singleton.mp h with rfl
          rfl
        · rw [if_neg heq] at h
          cases h
  | updateReported u =>
    simp only [DeviceTwin.step] at h
    cases h

theorem run_notif_lb : ∀ (ops : List TwinOp) (s : DeviceTwin) {w : Nat},
    desiredVersion s = some w → ∀ n ∈ (s.run ops).2, w ≤ n
  | [], s, w, _, n, hn => by
    simp only [DeviceTwin.run, List.not_mem_nil] at hn
  | op :: rest, s, w, h, n, hn => by
    simp only [DeviceTwin.run, List.mem_append] at hn
    obtain ⟨w1, hw1, hle1⟩ := step_version_mono s op h
    rcases hn with hn | hn
    · have := step_notif hn
      rw [this] at hw1
      have := Option.some.inj hw1
      omega
    · exact le_trans hle1 (run_notif_lb rest (s.step op).1 hw1 n hn)

theorem run_version_mono : ∀ (ops : List TwinOp) (s : DeviceTwin) {w : Nat},
    desiredVersion s = some w →
    ∃ w2, desiredVersion (s.run ops).1 = some w2 ∧ w ≤ w2
  | [], s, w, h => ⟨w, h, le_refl w⟩
  | op :: rest, s, w, h => by
    simp only [DeviceTwin.run]
    obtain ⟨w1, hw1, hle1⟩ := step_version_mono s op h
    obtain ⟨w2, hw2, hle2⟩ := run_version_mono rest (s.step op).1 hw1
    exact ⟨w2, hw2, le_trans hle1 hle2⟩

theorem setDesired_notif_shape (s : DeviceTwin) (v : Nat) (p : Json) :
    (s.setDesiredProperties v p).2.1 = [] ∨
      ∃ n, (s.setDesiredProperties v p).2.1 = [n] := by
  cases hd : s.desired with
  | none =>
    simp only [DeviceTwin.setDesiredProperties, hd]
    by_cases hok : (drainUpdates ⟨v, p⟩ s.desiredPropertiesUpdates).2.2
    · rw [if_pos hok]
      exact Or.inr ⟨_, rfl⟩
    · rw [if_neg hok]
      exact Or.inl rfl
  | some twin =>
    simp only [DeviceTwin.setDesiredProperties, hd]
    by_cases hlt : v < twin.version
    · rw [if_pos hlt]
      exact Or.inl rfl
    · rw [if_neg hlt]
      by_cases hok : (drainUpdates ⟨v, p⟩ s.desiredPropertiesUpdates).2.2
      · rw [if_pos hok]
        exact Or.inr ⟨_, rfl⟩
      · rw [if_neg hok]
        exact Or.inl rfl

theorem step_notif_shape (s : DeviceTwin) (op : TwinOp) :
    (s.step op).2 = [] ∨ ∃ n, (s.step op).2 = [n] := by
  cases op with
  | setTwins d r =>
    simp only [DeviceTwin.step, DeviceTwin.setTwins]
    by_cases hok : (s.setDesiredProperties d.version d.properties).2.2
    · rw [if_pos hok]
      exact setDesired_notif_shape s d.version d.properties
    · rw [if_neg hok]
      exact setDesired_notif_shape s d.version d.properties
  | updateDesired v u =>
    cases hd : s.desired with
    | none =>
      simp only [DeviceTwin.step, DeviceTwin.updateDesiredProperties, hd]
      by_cases hv : u.version ≠ some v
      · rw [if_pos hv]
        exact Or.inl rfl
      · rw [if_neg hv]
        exact Or.inl rfl
    | some twin =>
      simp only [DeviceTwin.step, DeviceTwin.updateDesiredProperties, hd]
      by_cases hv : u.version ≠ some v
      · rw [if_pos hv]
        exact Or.inl rfl
      · rw [if_neg hv]
        by_cases heq : v = twin.version + 1
        · rw [if_pos heq]
          exact Or.inr ⟨v, rfl⟩
        · rw [if_neg heq]
          exact Or.inl rfl
  | updateReported u => exact Or.inl rfl

theorem run_notif_chain : ∀ (ops : List TwinOp) (s : DeviceTwin),
    List.Chain' (· ≤ ·) (s.run ops).2
  | [], s => List.chain'_nil
  | op :: rest, s => by
    simp only [DeviceTwin.run]
    have hrest := run_notif_chain rest (s.step op).1
    rcases step_notif_shape s op with hsh | ⟨n, hsh⟩
    · rw [hsh]
      simpa using hrest
    · rw [hsh, List.singleton_append]
      rw [List.chain'_cons']
      refine ⟨?_, hrest⟩
      intro m hm
      have hsv : desiredVersion (s.step op).1 = some n :=
        step_notif (by rw [hsh]; exact List.mem_singleton.mpr rfl)
      exact run_notif_lb rest (s.step op).1 hsv m (List.mem_of_mem_head? hm)


/-- C2 counterexample: an inbound desired-properties patch whose version
`v = 5` equals the current local desired version 5 does *not* succeed
silently: `DeviceTwin::update_desired_properties` returns
`PatchVersionMismatch` (the claim asserts no error is reported). -/
theorem C2_stale_patch_counterexample :
    (5 : Nat) ≤ 5 ∧
    ((DeviceTwin.mk (some ⟨5, Json.obj []⟩) none []).updateDesiredProperties 5
        ⟨some 5, Json.obj []⟩).2.2 =
      some (.patchVersionMismatch 5 5) := by
  decide

/-- C2 (amended): for every inbound desired-properties patch whose version
`v` is at most the current local desired version, handling the patch leaves
the state (snapshot, buffered queue, notifications) entirely unchanged and
returns the `PatchVersionMismatch` error — which the twin middleware
handles internally by requesting a full twin snapshot rather than
surfacing it. -/
theorem C2_stale_patch_rejected (s : DeviceTwin) (v : Nat) (u : TwinUpdate) (t : Twin)
    (hd : s.desired = some t) (hu : u.version = some v) (hle : v ≤ t.version) :
    s.updateDesiredProperties v u = (s, [], some (.patchVersionMismatch t.version v)) := by
  have hv : ¬u.version ≠ some v := fun hh => hh hu
  simp only [DeviceTwin.updateDesiredProperties, if_neg hv, hd]
  have hne : ¬v = t.version + 1 := by omega
  rw [if_neg hne]

/-- C2 witness: the amended theorem at the concrete state of the
counterexample. -/
theorem C2_stale_patch_witness :
    (DeviceTwin.mk (some ⟨5, Json.obj []⟩) none []).updateDesiredProperties 5
        ⟨some 5, Json.obj []⟩ =
      (DeviceTwin.mk (some ⟨5, Json.obj []⟩) none [], [],
        some (.patchVersionMismatch 5 5)) :=
  C2_stale_patch_rejected (DeviceTwin.mk (some ⟨5, Json.obj []⟩) none []) 5
    ⟨some 5, Json.obj []⟩ ⟨5, Json.obj []⟩ rfl rfl (by decide)

/-- C4 counterexample: a full-snapshot install whose server version equals
the local version (5 = 5, not strictly greater) is *not* ignored: the local
snapshot is overwritten with the server properties. -/
theorem C4_equal_version_counterexample :
    (5 : Nat) ≤ 5 ∧
    ((DeviceTwin.mk (some ⟨5, Json.obj []⟩) none []).setDesiredProperties 5
        (Json.obj [("a", Json.num 1)])).1 ≠
      DeviceTwin.mk (some ⟨5, Json.obj []⟩) none [] ∧
    ((DeviceTwin.mk none (some ⟨5, Json.obj []⟩) []).setReportedProperties 5
        (Json.obj [("a", Json.num 1)])) ≠
      DeviceTwin.mk none (some ⟨5, Json.obj []⟩) [] := by
  decide

/-- C4 (amended): a full twin snapshot install is ignored (state and result
unchanged) if and only if the server version is *strictly below* the local
version; for every server version greater than or equal to the local one
the snapshot is overwritten — the desired twin additionally drains its
buffered patch queue on top of the installed snapshot.  This holds for the
desired and the reported twin alike. -/
theorem C4_full_install (s : DeviceTwin) (v : Nat) (p : Json) (t t2 : Twin)
    (hd : s.desired = some t) (hr : s.reported = some t2) :
    (v < t.version → s.setDesiredProperties v p = (s, [], true)) ∧
    (t.version ≤ v → (s.setDesiredProperties v p).1.desired =
      some (drainUpdates ⟨v, p⟩ s.desiredPropertiesUpdates).1) ∧
    (v < t2.version → s.setReportedProperties v p = s) ∧
    (t2.version ≤ v → (s.setReportedProperties v p).reported = some ⟨v, p⟩) := by
  refine ⟨?_, ?_, ?_, ?_⟩
  · intro hlt
    simp only [DeviceTwin.setDesiredProperties, hd, if_pos hlt]
  · intro hge
    have hlt : ¬v < t.version := by omega
    simp only [DeviceTwin.setDesiredProperties, hd, if_neg hlt]
    by_cases hok : (drainUpdates ⟨v, p⟩ s.desiredPropertiesUpdates).2.2
    · rw [if_pos hok]
    · rw [if_neg hok]
  · intro hlt
    simp only [DeviceTwin.setReportedProperties, hr, if_pos hlt]
  · intro hge
    have hlt : ¬v < t2.version := by omega
    simp only [DeviceTwin.setReportedProperties, hr, if_neg hlt]

/-- C4 witness: the amended theorem at concrete states, exercising all four
branches (install below / at-or-above the local version, desired and
reported). -/
theorem C4_full_install_witness :
    ((DeviceTwin.mk (some ⟨5, Json.obj []⟩) (some ⟨5, Json.obj []⟩) []).setDesiredProperties 4
        (Json.obj [("a", Json.num 1)]) =
      (DeviceTwin.mk (some ⟨5, Json.obj []⟩) (some ⟨5, Json.obj []⟩) [], [], true)) ∧
    (((DeviceTwin.mk (some ⟨5, Json.obj []⟩) (some ⟨5, Json.obj []⟩) []).setDesiredProperties 6
        (Json.obj [("a", Json.num 1)])).1.desired =
      some (drainUpdates ⟨6, Json.obj [("a", Json.num 1)]⟩ []).1) ∧
    ((DeviceTwin.mk (some ⟨5, Json.obj []⟩) (some ⟨5, Json.obj []⟩) []).setReportedProperties 4
        (Json.obj [("a", Json.num 1)]) =
      DeviceTwin.mk (some ⟨5, Json.obj []⟩) (some ⟨5, Json.obj []⟩) []) ∧
    (((DeviceTwin.mk (some ⟨5, Json.obj []⟩) (some ⟨5, Json.obj []⟩) []).setReportedProperties 6
        (Json.obj [("a", Json.num 1)])).reported =
      some ⟨6, Json.obj [("a", Json.num 1)]⟩) :=
  ⟨(C4_full_install (DeviceTwin.mk (some ⟨5, Json.obj []⟩) (some ⟨5, Json.obj []⟩) []) 4
      (Json.obj [("a", Json.num 1)]) ⟨5, Json.obj []⟩ ⟨5, Json.obj []⟩ rfl rfl).1 (by decide),
    (C4_full_install (DeviceTwin.mk (some ⟨5, Json.obj []⟩) (some ⟨5, Json.obj []⟩) []) 6
      (Json.obj [("a", Json.num 1)]) ⟨5, Json.obj []⟩ ⟨5, Json.obj []⟩ rfl rfl).2.1 (by decide),
    (C4_full_install (DeviceTwin.mk (some ⟨5, Json.obj []⟩) (some ⟨5, Json.obj []⟩) []) 4
      (Json.obj [("a", Json.num 1)]) ⟨5, Json.obj []⟩ ⟨5, Json.obj []⟩ rfl rfl).2.2.1 (by decide),
    (C4_full_install (DeviceTwin.mk (some ⟨5, Json.obj []⟩) (some ⟨5, Json.obj []⟩) []) 6
      (Json.obj [("a", Json.num 1)]) ⟨5, Json.obj []⟩ ⟨5, Json.obj []⟩ rfl rfl).2.2.2 (by decide)⟩

/-- C5: across every sequence of twin operations (full-snapshot installs,
inbound versioned desired patches, drains of buffered patches inside the
installs) the desired twin version never decreases, and the versions
carried by consecutive `DesiredUpdated` notifications form a monotone
non-decreasing sequence. -/
theorem C5_desired_version_monotone (s0 : DeviceTwin) (ops : List TwinOp) :
    (∀ w, desiredVersion s0 = some w →
      ∃ w2, desiredVersion (s0.run ops).1 = some w2 ∧ w ≤ w2) ∧
    List.Chain' (· ≤ ·) (s0.run ops).2 :=
  ⟨fun _ hw => run_version_mono ops s0 hw, run_notif_chain ops s0⟩

/-- C5 witness: a concrete run mixing a patch, a full install and a stale
patch, starting from desired version 5. -/
theorem C5_desired_version_monotone_witness :
    (∃ w2, desiredVersion
        ((DeviceTwin.mk (some ⟨5, Json.obj []⟩) (some ⟨1, Json.obj []⟩) []).run
          [.updateDesired 6 ⟨some 6, Json.obj []⟩,
           .setTwins ⟨9, Json.obj []⟩ ⟨2, Json.obj []⟩,
           .updateDesired 3 ⟨some 3, Json.obj []⟩]).1 = some w2 ∧ 5 ≤ w2) ∧
    List.Chain' (· ≤ ·)
      ((DeviceTwin.mk (some ⟨5, Json.obj []⟩) (some ⟨1, Json.obj []⟩) []).run
        [.updateDesired 6 ⟨some 6, Json.obj []⟩,
         .setTwins ⟨9, Json.obj []⟩ ⟨2, Json.obj []⟩,
         .updateDesired 3 ⟨some 3, Json.obj []⟩]).2 :=
  ⟨(C5_desired_version_monotone (DeviceTwin.mk (some ⟨5, Json.obj []⟩)
      (some ⟨1, Json.obj []⟩) [])
      [.updateDesired 6 ⟨some 6, Json.obj []⟩,
       .setTwins ⟨9, Json.obj []⟩ ⟨2, Json.obj []⟩,
       .updateDesired 3 ⟨some 3, Json.obj []⟩]).1 5 rfl,
    (C5_desired_version_monotone (DeviceTwin.mk (some ⟨5, Json.obj []⟩)
      (some ⟨1, Json.obj []⟩) [])
      [.updateDesired 6 ⟨some 6, Json.obj []⟩,
       .setTwins ⟨9, Json.obj []⟩ ⟨2, Json.obj []⟩,
       .updateDesired 3 ⟨some 3, Json.obj []⟩]).2⟩


/-! ## Cloud-to-device handler (`src/spotflow/src/iothub/handlers/c2d.rs`)

`CloudToDeviceHandler::handle` is modelled as the sequence of externally
visible effects it performs on one MQTT publish.  `topicProps` is the
result of `query::parse` applied to the topic's property bag (`none` when
parsing failed, in which case the handler logs and returns); `storeOk` is
the outcome of the durable inbox write `self.producer.send(&msg).await`.
After the store attempt the handler acknowledges the publish
unconditionally — also when the store failed: the code logs "Cannot store
a cloud-to-device message. It will not be processed" and still falls
through to `self.client.ack(publish)`. -/

inductive C2DEvent where
  | storeAttempt (ok : Bool)
  | mqttAck
deriving Repr, DecidableEq

/-- The effect trace of `CloudToDeviceHandler::handle`. -/
def handleC2D (topicProps : Option (List (String × Option String))) (storeOk : Bool) :
    List C2DEvent :=
  match topicProps with
  | none => []
  | some _ => [.storeAttempt storeOk, .mqttAck]

/-- C3 counterexample: when the durable inbox write fails, the handler
still sends the MQTT acknowledgment — the trace contains the ack without
any successful store. -/
theorem C3_ack_counterexample :
    C2DEvent.mqttAck ∈ handleC2D (some []) false ∧
    C2DEvent.storeAttempt true ∉ handleC2D (some []) false := by
  decide

/-- C3 (amended): for every cloud-to-device publish, if the topic's
property bag fails to parse the handler neither stores nor acknowledges;
otherwise it first attempts the durable store and then sends the MQTT
acknowledgment regardless of whether the store succeeded (a failed store
loses the message but is still acked). -/
theorem C3_ack_after_store_attempt
    (topicProps : Option (List (String × Option String))) (storeOk : Bool) :
    (topicProps = none → handleC2D topicProps storeOk = []) ∧
    (∀ props, topicProps = some props →
      handleC2D topicProps storeOk = [.storeAttempt storeOk, .mqttAck]) := by
  constructor
  · intro h
    rw [h, handleC2D]
  · intro props h
    rw [h, handleC2D]

/-- C3 witness: the amended theorem at a parsed topic with a failing store
and at an unparsable topic. -/
theorem C3_ack_after_store_attempt_witness :
    handleC2D (some [("a", none)]) false = [.storeAttempt false, .mqttAck] ∧
    handleC2D none true = [] :=
  ⟨(C3_ack_after_store_attempt (some [("a", none)]) false).2 [("a", none)] rfl,
    (C3_ack_after_store_attempt none true).1 rfl⟩

/-! ## Outbound message compression (`src/spotflow/src/iothub/sender.rs`)

`Sender::publish_iothub` selects the payload bytes and appends the
`content-encoding=br` property.  The Brotli encoder itself is the external
`brotli` crate; it is modelled as an opaque function `compress` from the
payload bytes and quality to the compressed bytes. -/

inductive Compression where
  | none
  | brotliFastest
  | brotliSmallestSize
deriving Repr, DecidableEq

/-- Model of `get_compression_quality` (`sender.rs:242-248`). -/
def get_compression_quality : Compression → Option Int
  | .none => Option.none
  | .brotliFastest => some 1
  | .brotliSmallestSize => some 11

/-- The content/property selection of `Sender::publish_iothub`
(`sender.rs:99-118`): compress only a non-empty payload with compression
other than `None`; use the compressed bytes and push `content-encoding=br`
exactly when compression strictly shrinks the payload. -/
def selectContent (compress : List Nat → Int → List Nat) (content : List Nat)
    (compression : Compression) (properties : List String) : List Nat × List String :=
  match content.isEmpty, get_compression_quality compression with
  | false, some q =>
    let compressed := compress content q
    if compressed.length < content.length then
      (compressed, properties ++ ["content-encoding=br"])
    else (content, properties)
  | _, _ => (content, properties)

/-- C6: a non-empty payload with compression other than `None` is
compressed with Brotli at quality 1 (`Fastest`) or 11 (`SmallestSize`);
the property `content-encoding=br` is appended and the compressed bytes
are used if and only if the compressed length is strictly smaller than the
original; otherwise the original bytes go out without that property.
Empty payloads and compression `None` are always sent untouched. -/
theorem C6_compression_selection (compress : List Nat → Int → List Nat)
    (content : List Nat) (compression : Compression) (properties : List String)
    (hbr : "content-encoding=br" ∉ properties) :
    (get_compression_quality .none = Option.none ∧
      get_compression_quality .brotliFastest = some 1 ∧
      get_compression_quality .brotliSmallestSize = some 11) ∧
    (content.isEmpty = true ∨ compression = .none →
      selectContent compress content compression properties = (content, properties)) ∧
    ("content-encoding=br" ∈ (selectContent compress content compression properties).2 ↔
      content.isEmpty = false ∧ ∃ q, get_compression_quality compression = some q ∧
        (compress content q).length < content.length) ∧
    (∀ q, content.isEmpty = false → get_compression_quality compression = some q →
      (compress content q).length < content.length →
      selectContent compress content compression properties =
        (compress content q, properties ++ ["content-encoding=br"])) ∧
    (∀ q, content.isEmpty = false → get_compression_quality compression = some q →
      ¬(compress content q).length < content.length →
      selectContent compress content compression properties = (content, properties)) := by
  refine ⟨⟨rfl, rfl, rfl⟩, ?_, ?_, ?_, ?_⟩
  · intro h
    rcases h with h | h
    · cases hq : get_compression_quality compression with
      | none => simp only [selectContent, h, hq]
      | some q => simp only [selectContent, h, hq]
    · cases he : content.isEmpty with
      | true => simp only [selectContent, he, h, get_compression_quality]
      | false => simp only [selectContent, he, h, get_compression_quality]
  · cases he : content.isEmpty with
    | true =>
      cases hq : get_compression_quality compression with
      | none =>
        simp only [selectContent, he, hq]
        constructor
        · intro hmem
          exact absurd hmem hbr
        · rintro ⟨h, _⟩
          cases h
      | some q =>
        simp only [selectContent, he, hq]
        constructor
        · intro hmem
          exact absurd hmem hbr
        · rintro ⟨h, _⟩
          cases h
    | false =>
      cases hq : get_compression_quality compression with
      | none =>
        simp only [selectContent, he, hq]
        constructor
        · intro hmem
          exact absurd hmem hbr
        · rintro ⟨_, q, hq2, _⟩
          cases hq2
      | some q =>
        simp only [selectContent, he, hq]
        by_cases hlen : (compress content q).length < content.length
        · rw [if_pos hlen]
          simp only [List.mem_append, List.mem_singleton, or_true, true_iff]
          exact ⟨by simp, q, rfl, hlen⟩
        · rw [if_neg hlen]
          constructor
          · intro hmem
            exact absurd hmem hbr
          · rintro ⟨_, q2, hq2, hlen2⟩
            cases hq2
            exact absurd hlen2 hlen
  · intro q he hq hlen
    simp only [selectContent, he, hq]
    rw [if_pos hlen]
  · intro q he hq hlen
    simp only [selectContent, he, hq]
    rw [if_neg hlen]

/-- C6 witness: the selection at a shrinking compressor and at a
non-shrinking one (spec scenario S6: payloads are sent uncompressed when
compression does not help). -/
theorem C6_compression_selection_witness :
    selectContent (fun _ _ => [0]) [1, 2, 3] .brotliFastest [] =
      ([0], ["content-encoding=br"]) ∧
    selectContent (fun c _ => c ++ [0]) [1, 2, 3] .brotliSmallestSize ["site-id=s"] =
      ([1, 2, 3], ["site-id=s"]) :=
  ⟨(C6_compression_selection (fun _ _ => [0]) [1, 2, 3] .brotliFastest []
      (by decide)).2.2.2.1 1 rfl rfl (by decide),
    (C6_compression_selection (fun c _ => c ++ [0]) [1, 2, 3] .brotliSmallestSize
      ["site-id=s"] (by decide)).2.2.2.2 11 rfl rfl (by decide)⟩


/-! ## Credential expiry clock-skew (`src/spotflow/src/iothub/token_handler.rs`) -/

/-- Model of `TokenHandler::expect_clockskew` (`token_handler.rs:306-319`), with
timestamps modelled as integer seconds.  `expiration_duration / 2` is
chrono `Duration` division, i.e. integer division truncating toward zero
(`Int.tdiv`); `Ord::min` on `DateTime` returns the earlier instant. -/
def expect_clockskew (now expiration : Int) : Int :=
  let expirationDuration := expiration - now
  let expirationDatetime := expiration - Int.tdiv expirationDuration 2
  if expirationDuration > 25 * 60 then min (expiration - 10 * 60) expirationDatetime
  else expirationDatetime

/-- The `expiration_duration > minutes_25` branch of `expect_clockskew` is
dead code: whenever the remaining lifetime exceeds 25 minutes, the
half-lifetime point lies more than 10 minutes before the expiry, so
`Ord::min` — the *earlier* of the two instants — always returns the
half-lifetime pre-skew and the 10-minute bound never takes effect. -/
theorem expect_clockskew_bound_never_applies (now expiration : Int) :
    expect_clockskew now expiration = expiration - Int.tdiv (expiration - now) 2 := by
  simp only [expect_clockskew]
  by_cases h : expiration - now > 25 * 60
  · rw [if_pos h]
    have h2 : Int.tdiv (expiration - now) 2 ≥ 600 := by
      rw [Int.tdiv_eq_ediv (by omega) (by omega)]
      omega
    rw [min_eq_right (by omega)]
  · rw [if_neg h]

/-- C7: evaluating `expect_clockskew` at a credential whose remaining
lifetime is 100 minutes (now = 0, expiry = 6000 s).  The effective expiry
moves earlier by 50 minutes — half the remaining lifetime — so the
difference between the original and the adjusted expiry is 3000 s,
strictly above the 10-minute bound the claim asserts.  (The bound branch
exists in the code but uses `Ord::min`, which always selects the
already-earlier half-lifetime instant; see
`expect_clockskew_bound_never_applies`.) -/
theorem C7_skew_exceeds_ten_minutes :
    expect_clockskew 0 6000 = 3000 ∧
    6000 - expect_clockskew 0 6000 = 3000 ∧
    3000 > 10 * 60 := by
  decide

/-! ## C#-style duration parsing (`src/spotflow/src/cloud/duration_wrapper.rs`)

`DurationVisitor::visit_str` parses `[-][d.]hh:mm:ss[.fffffff]`.  The
model returns the total seconds as `some`, and `none` where the Rust code
fails: both where it returns a serde `invalid_value` error (a malformed
numeric part) and where it panics on a missing part (`parts[1]` /
`parts[2]` index out of bounds — a two-component string like `"10:39"`
panics in Rust; the repository test `deser_duration_fail` is
`#[should_panic]`).  Fractional seconds are ignored, as in the source. -/

/-- Model of `str::split(sep)` on the character list of a string: the list of
separated chunks; splitting the empty string yields one empty chunk. -/
def splitOnChar (sep : Char) : List Char → List (List Char)
  | [] => [[]]
  | c :: rest =>
    let r := splitOnChar sep rest
    if c = sep then [] :: r
    else
      match r with
      | [] => [[c]]
      | x :: xs => (c :: x) :: xs

/-- Model of `u64::from_str` on a character list: digits only, empty input fails.
(Numbers are modelled as `Nat`; the claims exercise values far below
`u64::MAX`.) -/
def parseU64Aux : List Char → Nat → Option Nat
  | [], acc => some acc
  | c :: rest, acc =>
    if c.isDigit then parseU64Aux rest (acc * 10 + (c.toNat - '0'.toNat))
    else Option.none

def parseU64 : List Char → Option Nat
  | [] => Option.none
  | cs => parseU64Aux cs 0

/-- Model of `DurationVisitor::visit_str` (`duration_wrapper.rs:50-123`): the total
number of seconds denoted by the duration string, or `none` when the Rust
code errors or panics. -/
def visit_str (s : String) : Option Nat :=
  if s.data.head? = some '-' then some 0
  else
    let parts := splitOnChar ':' s.data
    match parts.get? 0, parts.get? 1, parts.get? 2 with
    | some dayAndHour, some minutesPart, some secondsAndMicros =>
      match parseU64 minutesPart with
      | Option.none => Option.none
      | some minutes =>
        let dh : Option (Nat × Nat) :=
          if dayAndHour.contains '.' then
            let dparts := splitOnChar '.' dayAndHour
            match dparts.get? 0, dparts.get? 1 with
            | some dstr, some hstr =>
              match parseU64 dstr, parseU64 hstr with
              | some d, some h => some (d, h)
              | _, _ => Option.none
            | _, _ => Option.none
          else
            match parseU64 dayAndHour with
            | some h => some (0, h)
            | Option.none => Option.none
        match dh with
        | Option.none => Option.none
        | some (days, hours) =>
          let seconds : Option Nat :=
            if secondsAndMicros.contains '.' then
              match (splitOnChar '.' secondsAndMicros).get? 0 with
              | some sstr => parseU64 sstr
              | Option.none => Option.none
            else parseU64 secondsAndMicros
          match seconds with
          | Option.none => Option.none
          | some secs =>
            some (days * 60 * 60 * 24 + hours * 60 * 60 + minutes * 60 + secs)
    | _, _, _ => Option.none

/-- C8: the C#-style duration parser maps `"8.11:55:36.3296177"` to 734136
seconds, `"13:00:39"` to 46839, `"00:00:39"` to 39 and
`"0000.00:00:00.00"` to 0, and fails on the two-component string
`"10:39"` (in Rust this is an index-out-of-bounds panic on `parts[2]`; it
produces no duration). -/
theorem C8_duration_values :
    visit_str "8.11:55:36.3296177" = some 734136 ∧
    visit_str "13:00:39" = some 46839 ∧
    visit_str "00:00:39" = some 39 ∧
    visit_str "0000.00:00:00.00" = some 0 ∧
    visit_str "10:39" = Option.none := by
  decide

/-! ## Builder validation (`src/spotflow/src/ingress/builder.rs`)

`DeviceClientBuilder::build_impl` (`builder.rs:199-221`) performs exactly
one synchronous input validation before its first effect (loading the
configuration from the local database file): it rejects an *empty*
database-file path with a configuration error.  No check of the
documented `".db"` suffix exists anywhere in the crate — the doc comment
on `DeviceClientBuilder::new` states the requirement but the code never
enforces it. -/

inductive BuildValidation where
  | configError (msg : String)
  | proceeds
deriving Repr, DecidableEq

/-- The validation prefix of `build_impl`, up to its first effect. -/
def validateDatabaseFile (databaseFile : String) : BuildValidation :=
  if databaseFile.data.isEmpty then
    .configError "The path to the local database file cannot be empty; provide a value."
  else .proceeds

/-- C9 counterexample: a non-empty database-file path that does not end in
`".db"` passes validation and `build` proceeds to its effects — no
configuration error is raised. -/
theorem C9_no_suffix_check_counterexample :
    (".db".data.isSuffixOf "device.sqlite".data) = false ∧
    validateDatabaseFile "device.sqlite" = .proceeds := by
  decide

/-- C9 (amended): `build` fails synchronously with a configuration error
before any other effect if and only if the database-file path is empty;
the documented `".db"` suffix requirement is not validated, so any
non-empty path proceeds. -/
theorem C9_validation_empty_only (s : String) :
    (s.data.isEmpty = true → validateDatabaseFile s =
      .configError "The path to the local database file cannot be empty; provide a value.") ∧
    (s.data.isEmpty = false → validateDatabaseFile s = .proceeds) := by
  constructor
  · intro h
    rw [validateDatabaseFile, if_pos h]
  · intro h
    rw [validateDatabaseFile, if_neg (by rw [h]; exact Bool.false_ne_true)]

/-- C9 witness: the amended theorem at the empty path and at a path with a
non-`.db` suffix. -/
theorem C9_validation_empty_only_witness :
    validateDatabaseFile "" =
      .configError "The path to the local database file cannot be empty; provide a value." ∧
    validateDatabaseFile "device.sqlite" = .proceeds :=
  ⟨(C9_validation_empty_only "").1 rfl, (C9_validation_empty_only "device.sqlite").2 rfl⟩


/-! ## Topic property-bag parsing (`src/spotflow/src/iothub/query.rs`)

`query::parse` splits the property bag on `&`; a token with an `=` maps
its URL-decoded key to `Some(decoded value)`, a token without one maps its
decoded name to `None`.  `urlencoding::decode` is an external crate and is
modelled as an opaque `decode : String → Option String` (it fails the
whole parse through `?` when it errors).  The C2D handler
(`c2d.rs:55-61`) then delivers the map with `v.unwrap_or_default()`,
turning `None` into the empty string. -/

/-- Model of `prop.find('=')`: split a token at its first `=` (the key before it,
the value after it), or `none` when the token contains no `=`. -/
def splitAtEq : List Char → Option (List Char × List Char)
  | [] => Option.none
  | c :: rest =>
    if c = '=' then some ([], rest)
    else
      match splitAtEq rest with
      | Option.none => Option.none
      | some (k, v) => some (c :: k, v)

/-- Model of `HashMap::insert`: replace any previous binding of the key. -/
def hinsert (m : List (String × Option String)) (k : String) (v : Option String) :
    List (String × Option String) :=
  (k, v) :: m.filter (fun p => p.1 != k)

/-- Model of `HashMap::get`. -/
def hfind (k : String) (m : List (String × Option String)) : Option (Option String) :=
  (m.find? (fun p => p.1 == k)).map Prod.snd

/-- The token loop of `query::parse`, over the `&`-separated tokens with
the accumulated map. -/
def parseTokensAux (decode : String → Option String) :
    List String → List (String × Option String) → Option (List (String × Option String))
  | [], m => some m
  | tok :: rest, m =>
    match splitAtEq tok.data with
    | Option.none =>
      match decode tok with
      | Option.none => Option.none
      | some k => parseTokensAux decode rest (hinsert m k Option.none)
    | some (kcs, vcs) =>
      match decode (String.mk kcs), decode (String.mk vcs) with
      | some k, some v => parseTokensAux decode rest (hinsert m k (some v))
      | _, _ => Option.none

/-- Model of `query::parse` (`query.rs:6-26`). -/
def parse (decode : String → Option String) (query : String) :
    Option (List (String × Option String)) :=
  parseTokensAux decode ((splitOnChar '&' query.data).map String.mk) []

/-- The key a token binds in the map (when its decode succeeds). -/
def tokKey (decode : String → Option String) (t : String) : Option String :=
  match splitAtEq t.data with
  | Option.none => decode t
  | some (kcs, _) => decode (String.mk kcs)

/-- All URL-decodes a token requires succeed. -/
def tokenOk (decode : String → Option String) (t : String) : Bool :=
  match splitAtEq t.data with
  | Option.none => (decode t).isSome
  | some (kcs, vcs) => (decode (String.mk kcs)).isSome && (decode (String.mk vcs)).isSome

/-- The property map the C2D handler hands to the consumer
(`c2d.rs:55-61`): `(k, v.unwrap_or_default())`. -/
def deliveredProps (m : List (String × Option String)) : List (String × String) :=
  m.map (fun p => (p.1, p.2.getD ""))

theorem hfind_hinsert_self (m : List (String × Option String)) (k : String)
    (v : Option String) : hfind k (hinsert m k v) = some v := by
  rw [hfind, hinsert]
  simp

theorem find_filter_ne {k k2 : String} (h : k ≠ k2) :
    ∀ (m : List (String × Option String)),
    (m.filter (fun p => p.1 != k2)).find? (fun p => p.1 == k) =
      m.find? (fun p => p.1 == k)
  | [] => rfl
  | q :: rest => by
    by_cases hq : q.1 = k2
    · have hc1 : ¬((fun p : String × Option String => p.1 != k2) q = true) := by
        simp [hq]
      have hc2 : ¬((fun p : String × Option String => p.1 == k) q = true) := by
        simp only [beq_iff_eq, hq]
        exact fun hh => h hh.symm
      rw [@List.filter_cons_of_neg _ (fun p : String × Option String => p.1 != k2) q rest hc1,
        find_filter_ne h rest,
        @List.find?_cons_of_neg _ (fun p : String × Option String => p.1 == k) q rest hc2]
    · have hc1 : (fun p : String × Option String => p.1 != k2) q = true := by
        simp [hq]
      rw [@List.filter_cons_of_pos _ (fun p : String × Option String => p.1 != k2) q rest hc1]
      by_cases hqk : q.1 = k
      · have hc2 : (fun p : String × Option String => p.1 == k) q = true := by
          simp [hqk]
        rw [@List.find?_cons_of_pos _ (fun p : String × Option String => p.1 == k) q
            (rest.filter (fun p => p.1 != k2)) hc2,
          @List.find?_cons_of_pos _ (fun p : String × Option String => p.1 == k) q rest hc2]
      · have hc2 : ¬((fun p : String × Option String => p.1 == k) q = true) := by
          simp [hqk]
        rw [@List.find?_cons_of_neg _ (fun p : String × Option String => p.1 == k) q
            (rest.filter (fun p => p.1 != k2)) hc2,
          @List.find?_cons_of_neg _ (fun p : String × Option String => p.1 == k) q rest hc2,
          find_filter_ne h rest]

theorem hfind_hinsert_ne {k k2 : String} (h : k2 ≠ k)
    (m : List (String × Option String)) (v : Option String) :
    hfind k (hinsert m k2 v) = hfind k m := by
  have hc : ¬((fun p : String × Option String => p.1 == k) (k2, v) = true) := by
    simp only [beq_iff_eq]
    exact h
  rw [hfind, hinsert,
    @List.find?_cons_of_neg _ (fun p : String × Option String => p.1 == k) (k2, v)
      (m.filter (fun p => p.1 != k2)) hc,
    find_filter_ne (fun hh => h hh.symm) m, hfind]

theorem mem_of_hfind {k : String} {v : Option String}
    {m : List (String × Option String)} (h : hfind k m = some v) : (k, v) ∈ m := by
  rw [hfind] at h
  cases hf : m.find? (fun p => p.1 == k) with
  | none =>
    rw [hf] at h
    cases h
  | some q =>
    rw [hf] at h
    have hq := List.find?_some hf
    have hmem := List.mem_of_find?_eq_some hf
    have hk : q.1 = k := by simpa using hq
    have hv : q.2 = v := Option.some.inj h
    have : q = (k, v) := by
      cases q
      simp only at hk hv
      rw [hk, hv]
    rw [← this]
    exact hmem

theorem mem_deliveredProps {k : String} {m : List (String × Option String)}
    (h : (k, Option.none) ∈ m) : (k, "") ∈ deliveredProps m := by
  rw [deliveredProps]
  exact List.mem_map_of_mem _ h

theorem parseTokensAux_total (decode : String → Option String) :
    ∀ (toks : List String) (m0 : List (String × Option String)),
    (∀ t ∈ toks, tokenOk decode t = true) →
    ∃ m, parseTokensAux decode toks m0 = some m
  | [], m0, _ => ⟨m0, rfl⟩
  | tok :: rest, m0, hok => by
    have hok1 := hok tok (List.mem_cons_self _ _)
    have hokr : ∀ t ∈ rest, tokenOk decode t = true :=
      fun t ht => hok t (List.mem_cons_of_mem _ ht)
    cases hsp : splitAtEq tok.data with
    | none =>
      simp only [tokenOk, hsp] at hok1
      obtain ⟨k2, hk2⟩ := Option.isSome_iff_exists.mp hok1
      simp only [parseTokensAux, hsp, hk2]
      exact parseTokensAux_total decode rest _ hokr
    | some kv =>
      rcases kv with ⟨kcs, vcs⟩
      simp only [tokenOk, hsp, Bool.and_eq_true] at hok1
      obtain ⟨k2, hk2⟩ := Option.isSome_iff_exists.mp hok1.1
      obtain ⟨v2, hv2⟩ := Option.isSome_iff_exists.mp hok1.2
      simp only [parseTokensAux, hsp, hk2, hv2]
      exact parseTokensAux_total decode rest _ hokr

theorem parseTokensAux_preserves (decode : String → Option String) {k : String}
    {v : Option String} :
    ∀ (toks : List String) (m0 : List (String × Option String)),
    (∀ t ∈ toks, tokenOk decode t = true) →
    (∀ t ∈ toks, tokKey decode t ≠ some k) →
    hfind k m0 = some v →
    ∃ m, parseTokensAux decode toks m0 = some m ∧ hfind k m = some v
  | [], m0, _, _, h => ⟨m0, rfl, h⟩
  | tok :: rest, m0, hok, hkey, h => by
    have hok1 := hok tok (List.mem_cons_self _ _)
    have hkey1 := hkey tok (List.mem_cons_self _ _)
    have hokr : ∀ t ∈ rest, tokenOk decode t = true :=
      fun t ht => hok t (List.mem_cons_of_mem _ ht)
    have hkeyr : ∀ t ∈ rest, tokKey decode t ≠ some k :=
      fun t ht => hkey t (List.mem_cons_of_mem _ ht)
    cases hsp : splitAtEq tok.data with
    | none =>
      simp only [tokenOk, hsp] at hok1
      obtain ⟨k2, hk2⟩ := Option.isSome_iff_exists.mp hok1
      simp only [tokKey, hsp, hk2] at hkey1
      have hne : k2 ≠ k := fun hh => hkey1 (by rw [hh])
      simp only [parseTokensAux, hsp, hk2]
      exact parseTokensAux_preserves decode rest _ hokr hkeyr
        (by rw [hfind_hinsert_ne hne]; exact h)
    | some kv =>
      rcases kv with ⟨kcs, vcs⟩
      simp only [tokenOk, hsp, Bool.and_eq_true] at hok1
      obtain ⟨k2, hk2⟩ := Option.isSome_iff_exists.mp hok1.1
      obtain ⟨v2, hv2⟩ := Option.isSome_iff_exists.mp hok1.2
      simp only [tokKey, hsp, hk2] at hkey1
      have hne : k2 ≠ k := fun hh => hkey1 (by rw [hh])
      simp only [parseTokensAux, hsp, hk2, hv2]
      exact parseTokensAux_preserves decode rest _ hokr hkeyr
        (by rw [hfind_hinsert_ne hne]; exact h)

theorem parseTokensAux_append (decode : String → Option String) :
    ∀ (a b : List String) (m0 : List (String × Option String)),
    parseTokensAux decode (a ++ b) m0 =
      match parseTokensAux decode a m0 with
      | some m1 => parseTokensAux decode b m1
      | Option.none => Option.none
  | [], b, m0 => rfl
  | tok :: a2, b, m0 => by
    rw [List.cons_append]
    cases hsp : splitAtEq tok.data with
    | none =>
      cases hk : decode tok with
      | none => simp only [parseTokensAux, hsp, hk]
      | some k2 =>
        simp only [parseTokensAux, hsp, hk]
        exact parseTokensAux_append decode a2 b _
    | some kv =>
      rcases kv with ⟨kcs, vcs⟩
      cases hk : decode (String.mk kcs) with
      | none => simp only [parseTokensAux, hsp, hk]
      | some k2 =>
        cases hv : decode (String.mk vcs) with
        | none => simp only [parseTokensAux, hsp, hk, hv]
        | some v2 =>
          simp only [parseTokensAux, hsp, hk, hv]
          exact parseTokensAux_append decode a2 b _

/-- C10: for every cloud-to-device topic query string, a property token
without an `=value` part whose name decodes successfully — provided the
whole property bag decodes (so the message is not failed) and no later
token binds the same name — ends up in the parsed map bound to `None`,
and the C2D handler delivers it to the consumer with the empty string as
its value.  It is not dropped and does not fail the message. -/
theorem C10_bare_property_delivered (decode : String → Option String) (query : String)
    (l1 l2 : List String) (t k : String)
    (hsplit : (splitOnChar '&' query.data).map String.mk = l1 ++ t :: l2)
    (hok : ∀ t2 ∈ (splitOnChar '&' query.data).map String.mk, tokenOk decode t2 = true)
    (hbare : splitAtEq t.data = Option.none)
    (hdec : decode t = some k)
    (hlater : ∀ t2 ∈ l2, tokKey decode t2 ≠ some k) :
    ∃ m, parse decode query = some m ∧ hfind k m = some Option.none ∧
      (k, "") ∈ deliveredProps m := by
  rw [parse, hsplit]
  rw [hsplit] at hok
  obtain ⟨m1, hm1⟩ := parseTokensAux_total decode l1 []
    (fun t2 ht => hok t2 (List.mem_append_left _ ht))
  rw [parseTokensAux_append, hm1]
  simp only [parseTokensAux, hbare, hdec]
  obtain ⟨m, hm, hfindm⟩ := parseTokensAux_preserves decode l2 (hinsert m1 k Option.none)
    (fun t2 ht => hok t2 (List.mem_append_right _ (List.mem_cons_of_mem _ ht)))
    hlater (hfind_hinsert_self m1 k Option.none)
  exact ⟨m, hm, hfindm, mem_deliveredProps (mem_of_hfind hfindm)⟩

/-- C10 witness: the theorem at the identity decode and the concrete query
`"a&b=1"`, whose first token has no `=value` part. -/
theorem C10_bare_property_delivered_witness :
    ∃ m, parse (fun s => some s) "a&b=1" = some m ∧
      hfind "a" m = some Option.none ∧ ("a", "") ∈ deliveredProps m :=
  C10_bare_property_delivered (fun s => some s) "a&b=1" [] ["b=1"] "a" "a"
    (by decide) (by decide) (by decide) rfl (by decide)

end DeviceSdk




